import Mathlib

/-!
# go-uuoskit: handle table, dynamic value and fixed-size types

A shallow embedding of `lib.go` (the handle table `gPackedTxs` with `validateIndex`,
`addPackedTx` and `transaction_free_`, the exported operations on transactions, and
`genPrivKey`) and of `uuoskit/structs.go` (`JsonValue` with `Get`, `SetValue`,
`MarshalJSON` and `UnmarshalJSON`, and the fixed-size primitive types), with the
properties proved about them.

Conventions.
* `C.int64_t` and Go `int` (64 bit) values are `Int`; no arithmetic in the embedded code can
  leave the 64-bit range, so no wrap-around is modelled.
* A `*PackedTransaction` is a `Ptr`: `none` is the nil pointer, `some a` the pointer to the
  object that lives at address `a`.
-/

namespace UuosKit

/-! ## Handle table (`lib.go`) -/

/-- A `*PackedTransaction`: `none` is nil, `some a` points to the object at address `a`. -/
abbrev Ptr := Option Nat

/-- The package-level slice `gPackedTxs []*PackedTransaction` (a nil slice is the empty list). -/
abbrev Table := List Ptr

/-- Source `validateIndex` (`lib.go` 89-99): `none` is the nil error. The last branch of the
match is unreachable, the index being in range after the first test. -/
def validateIndex (gPackedTxs : Table) (idx : Int) : Option String :=
  if idx < 0 ∨ idx ≥ (gPackedTxs.length : Int) then
    some "invalid idx"
  else
    match gPackedTxs[idx.toNat]? with
    | some none => some "invalid idx"
    | some (some _) => none
    | none => some "invalid idx"

/-- The loop `for i := 0; i < len(gPackedTxs); i++` of `addPackedTx` together with the two
statements after it. The first argument counts the iterations that remain
(`len(gPackedTxs) - i`); when none remains the loop exits and the pointer is appended. -/
def addPackedTx.loop (gPackedTxs : Table) (packedTx : Ptr) : Nat → Nat → Table × Int
  | 0, _ =>
    (gPackedTxs ++ [packedTx], ((gPackedTxs ++ [packedTx]).length : Int) - 1)
  | remaining + 1, i =>
    if gPackedTxs[i]? = some none then
      (gPackedTxs.set i packedTx, (i : Int))
    else
      addPackedTx.loop gPackedTxs packedTx remaining (i + 1)

/-- Source `addPackedTx` (`lib.go` 101-118): the new table and the returned handle. -/
def addPackedTx (gPackedTxs : Table) (packedTx : Ptr) : Table × Int :=
  if gPackedTxs.length ≥ 1024 then
    (gPackedTxs, -1)
  else
    addPackedTx.loop gPackedTxs packedTx gPackedTxs.length 0

/-- Source `transaction_free_` (`lib.go` 143-151): the table after the call. -/
def transaction_free_ (gPackedTxs : Table) (_index : Int) : Table :=
  let index := _index
  if index < 0 ∨ index ≥ (gPackedTxs.length : Int) then
    gPackedTxs
  else
    gPackedTxs.set index.toNat none

/-- A run of successive `addPackedTx` calls with no other call in between: the final table
and the handles returned, in call order. -/
def addMany : Table → List Ptr → Table × List Int
  | tbl, [] => (tbl, [])
  | tbl, p :: ps =>
    ((addMany (addPackedTx tbl p).1 ps).1, (addPackedTx tbl p).2 :: (addMany (addPackedTx tbl p).1 ps).2)

/-! ## Exported operations that take a handle (`lib.go`) -/

/-- What `renderData` is given to put under the key `data`: a string or an integer. -/
inductive Payload where
  | str (s : String)
  | int (i : Int)
  deriving DecidableEq, Repr

/-- The JSON envelope an exported operation returns: `data p` is the text
`\x7b"data": p\x7d`, `error err` the text `\x7b"error": "[error] in f[file:line] err"\x7d`,
of which only `err` is kept (the rest names the call site). -/
inductive Envelope where
  | data (payload : Payload)
  | error (err : String)
  deriving DecidableEq, Repr

/-- Source `renderData` (`lib.go` 24-28). -/
def renderData (data : Payload) : Envelope := Envelope.data data

/-- Source `renderError` (`lib.go` 30-36). -/
def renderError (err : String) : Envelope := Envelope.error err

/-- The value of one hexadecimal digit (`reverseHexTable` of `encoding/hex`). -/
def hexDigit (c : Char) : Option Nat :=
  if '0' ≤ c ∧ c ≤ '9' then some (c.toNat - '0'.toNat)
  else if 'a' ≤ c ∧ c ≤ 'f' then some (c.toNat - 'a'.toNat + 10)
  else if 'A' ≤ c ∧ c ≤ 'F' then some (c.toNat - 'A'.toNat + 10)
  else none

/-- The loop of `hex.Decode` over the characters still to read. -/
def hexDecode : List Char → Except String (List Nat)
  | [] => .ok []
  | [p] =>
    match hexDigit p with
    | none => .error "encoding/hex: invalid byte"
    | some _ => .error "encoding/hex: odd length hex string"
  | p :: q :: rest =>
    match hexDigit p, hexDigit q with
    | some a, some b =>
      match hexDecode rest with
      | .ok bytes => .ok ((a * 16 + b) :: bytes)
      | .error e => .error e
    | _, _ => .error "encoding/hex: invalid byte"

/-- Go `hex.DecodeString` (standard library): the decoded bytes, or an error when the text
has an odd length or a character that is no hexadecimal digit. -/
def hexDecodeString (s : String) : Except String (List Nat) := hexDecode s.toList

/-- The code `lib.go` calls and whose source is not in `lib.go` or `structs.go`: the methods
of `PackedTransaction` and `Action`, `PackActionArgs` of the ABI serializer and
`json.Unmarshal` into a `map[string]string`. `H` is the state that code reads and writes
(the objects behind the pointers, the wallet, the ABI cache); a method gets its receiver
as the pointer the caller passes, nil included. -/
structure Extern (H : Type) (Action : Type) where
  /-- The method `(*PackedTransaction).SetChainId(chainId) error`. -/
  SetChainId : Ptr → String → H → H × Option String
  /-- The method `(*PackedTransaction).AddAction(action) error`. -/
  AddAction : Ptr → Action → H → H × Option String
  /-- The method `(*PackedTransaction).Sign(pub) (string, error)`. -/
  Sign : Ptr → String → H → H × Except String String
  /-- The method `(*PackedTransaction).SignByPrivateKey(priv) (string, error)`. -/
  SignByPrivateKey : Ptr → String → H → H × Except String String
  /-- The method `(*PackedTransaction).Pack(compress) string`. -/
  Pack : Ptr → Bool → H → H × String
  /-- The method `(*PackedTransaction).Marshal() string`. -/
  Marshal : Ptr → H → H × String
  /-- The call `GetABISerializer().PackActionArgs(account, name, []byte(args))`, the
  arguments given as the text whose bytes are passed. -/
  PackActionArgs : String → String → String → H → H × Except String (List Nat)
  /-- The call `json.Unmarshal([]byte(permissions), &perms)`: the entries of the map, in the
  order `range perms` visits them. -/
  unmarshalPerms : String → Except String (List (String × String))
  /-- The call `NewAction(NewName(account), NewName(name))`. -/
  NewAction : String → String → Action
  /-- The method `(*Action).SetData(data)`. -/
  SetData : Action → List Nat → Action
  /-- The call `action.AddPermission(NewName(k), NewName(v))`. -/
  AddPermission : Action → String → String → Action

/-- The program state the exported operations work on: the handle table and the state of
the code behind `Extern`. -/
structure World (H : Type) where
  gPackedTxs : Table
  ext : H

/-- The index expression `gPackedTxs[idx]` for an index that is in range. -/
def Table.at (gPackedTxs : Table) (idx : Int) : Ptr := gPackedTxs.getD idx.toNat none

/-- Source `transaction_set_chain_id_` (`lib.go` 153-164). -/
def transaction_set_chain_id_ {H Action : Type} (X : Extern H Action) (w : World H)
    (_index : Int) (chainId : String) : World H × Envelope :=
  let index := _index
  if index < 0 ∨ index ≥ (w.gPackedTxs.length : Int) then
    (w, renderError "invalid index")
  else
    match X.SetChainId (w.gPackedTxs.at index) chainId w.ext with
    | (h, some err) => (⟨w.gPackedTxs, h⟩, renderError err)
    | (h, none) => (⟨w.gPackedTxs, h⟩, renderData (.str "ok"))

/-- Source `transaction_add_action_` (`lib.go` 166-203). -/
def transaction_add_action_ {H Action : Type} (X : Extern H Action) (w : World H)
    (idx : Int) (account name data permissions : String) : World H × Envelope :=
  match validateIndex w.gPackedTxs idx with
  | some err => (w, renderError err)
  | none =>
    let packed : H × Except String (List Nat) :=
      match hexDecodeString data with
      | .ok bytes => (w.ext, .ok bytes)
      | .error _ => X.PackActionArgs account name data w.ext
    match packed with
    | (h, .error err) => (⟨w.gPackedTxs, h⟩, renderError err)
    | (h, .ok __data) =>
      match X.unmarshalPerms permissions with
      | .error err => (⟨w.gPackedTxs, h⟩, renderError err)
      | .ok perms =>
        let action := X.SetData (X.NewAction account name) __data
        let action := perms.foldl (fun a kv => X.AddPermission a kv.1 kv.2) action
        match X.AddAction (w.gPackedTxs.at idx) action h with
        | (h', some err) => (⟨w.gPackedTxs, h'⟩, renderError err)
        | (h', none) => (⟨w.gPackedTxs, h'⟩, renderData (.str "ok"))

/-- Source `transaction_sign_` (`lib.go` 205-217). -/
def transaction_sign_ {H Action : Type} (X : Extern H Action) (w : World H)
    (idx : Int) (pub : String) : World H × Envelope :=
  match validateIndex w.gPackedTxs idx with
  | some err => (w, renderError err)
  | none =>
    match X.Sign (w.gPackedTxs.at idx) pub w.ext with
    | (h, .error err) => (⟨w.gPackedTxs, h⟩, renderError err)
    | (h, .ok sign) => (⟨w.gPackedTxs, h⟩, renderData (.str sign))

/-- Source `transaction_sign_by_private_key_` (`lib.go` 219-231). -/
def transaction_sign_by_private_key_ {H Action : Type} (X : Extern H Action) (w : World H)
    (idx : Int) (priv : String) : World H × Envelope :=
  match validateIndex w.gPackedTxs idx with
  | some err => (w, renderError err)
  | none =>
    match X.SignByPrivateKey (w.gPackedTxs.at idx) priv w.ext with
    | (h, .error err) => (⟨w.gPackedTxs, h⟩, renderError err)
    | (h, .ok sign) => (⟨w.gPackedTxs, h⟩, renderData (.str sign))

/-- Source `transaction_pack_` (`lib.go` 233-246). -/
def transaction_pack_ {H Action : Type} (X : Extern H Action) (w : World H)
    (idx : Int) (compress : Int) : World H × Envelope :=
  match validateIndex w.gPackedTxs idx with
  | some err => (w, renderError err)
  | none =>
    let r : H × String :=
      if compress ≠ 0 then
        X.Pack (w.gPackedTxs.at idx) true w.ext
      else
        X.Pack (w.gPackedTxs.at idx) false w.ext
    (⟨w.gPackedTxs, r.1⟩, renderData (.str r.2))

/-- Source `transaction_marshal_` (`lib.go` 248-256). -/
def transaction_marshal_ {H Action : Type} (X : Extern H Action) (w : World H)
    (idx : Int) : World H × Envelope :=
  match validateIndex w.gPackedTxs idx with
  | some err => (w, renderError err)
  | none =>
    let r := X.Marshal (w.gPackedTxs.at idx) w.ext
    (⟨w.gPackedTxs, r.1⟩, renderData (.str r.2))

/-! ## Dynamic value (`uuoskit/structs.go`) -/

mutual
/-- The dynamic values an `interface{}` holds in `structs.go`: the nil interface, a
`string`, a `[]JsonValue`, a `map[string]JsonValue` (its entries, a key looked up from the
front), a `JsonValue` struct, or a value of another type. -/
inductive Iface where
  | nil
  | str (s : String)
  | slice (xs : List JsonValue)
  | map (m : List (String × JsonValue))
  | jsonValue (v : JsonValue)
  | other (tag : Nat)
/-- Source `type JsonValue struct \x7b value interface\x7b\x7d \x7d`. -/
inductive JsonValue where
  | mk (value : Iface)
end

/-- The field `value` of a `JsonValue`. -/
def JsonValue.value : JsonValue → Iface
  | .mk v => v

/-- One element of the variadic `keys ...interface\x7b\x7d` of `Get`: a `string`, an `int`, or a
value of another type. -/
inductive Key where
  | str (v : String)
  | int (v : Int)
  | other (tag : Nat)

/-- The Go map index expression `m[k]`: the entry of `k`, or the zero value `JsonValue\x7b\x7d`
when the map has none. -/
def mapIndex (m : List (String × JsonValue)) (k : String) : JsonValue :=
  match m.lookup k with
  | some x => x
  | none => JsonValue.mk Iface.nil

/-- The body of the loop `for _, key := range keys` of `JsonValue.Get`: the next `value`,
or the error the function returns. The last branch of the innermost match is unreachable,
the index being in range after the test before it. -/
def JsonValue.Get.step (value : Iface) (key : Key) : Except String Iface :=
  match key with
  | .str v =>
    match value with
    | .map v2 => .ok (.jsonValue (mapIndex v2 v))
    | .jsonValue v2 =>
      match v2.value with
      | .map v3 => .ok (.jsonValue (mapIndex v3 v))
      | _ => .error "JsonValue is not a map"
    | _ => .error "JsonValue is not a map"
  | .int v =>
    let arr : Except String (List JsonValue) :=
      match value with
      | .slice a => .ok a
      | .jsonValue w =>
        match w.value with
        | .slice a => .ok a
        | _ => .error "JsonValue is not an array"
      | _ => .error "JsonValue is not an array"
    match arr with
    | .error e => .error e
    | .ok arr =>
      if v < 0 ∨ v ≥ (arr.length : Int) then
        .error "index out of range"
      else
        match arr[v.toNat]? with
        | some x => .ok (.jsonValue x)
        | none => .error "index out of range"
  | .other _ => .error "invalid key type"

/-- The loop `for _, key := range keys` of `JsonValue.Get` and the `return value, nil` after
it. -/
def JsonValue.Get.loop : Iface → List Key → Except String Iface
  | value, [] => .ok value
  | value, key :: keys =>
    match JsonValue.Get.step value key with
    | .error e => .error e
    | .ok value' => JsonValue.Get.loop value' keys

/-- Source `JsonValue.Get` (`structs.go` 245-289): `.ok v` is the return `v, nil` and
`.error e` the return `JsonValue\x7b\x7d, errors.New(e)`. -/
def JsonValue.Get (b : JsonValue) (keys : List Key) : Except String Iface :=
  if keys.length = 0 then
    .error "no key specified"
  else
    JsonValue.Get.loop b.value keys

/-- The child of a node one path segment away, as the specification describes the lookup:
a string segment on a map node that has the key, an integer segment on a list node that
has the index. -/
def JsonValue.child (n : JsonValue) (key : Key) : Option JsonValue :=
  match key, n.value with
  | .str k, .map m => m.lookup k
  | .int i, .slice xs => if 0 ≤ i then xs[i.toNat]? else none
  | _, _ => none

/-- The node a path leads to, following `JsonValue.child` segment by segment. -/
def JsonValue.follow : JsonValue → List Key → Option JsonValue
  | n, [] => some n
  | n, key :: keys =>
    match n.child key with
    | some c => JsonValue.follow c keys
    | none => none

/-- Whether the `value` that `Get` has at hand is a map: a `map[string]JsonValue`, or a
`JsonValue` that holds one. -/
def Iface.isMap : Iface → Bool
  | .map _ => true
  | .jsonValue (.mk (.map _)) => true
  | _ => false

/-- The list that the `value` that `Get` has at hand is: a `[]JsonValue`, or the one a
`JsonValue` holds; `none` when it is no list. -/
def Iface.asList : Iface → Option (List JsonValue)
  | .slice xs => some xs
  | .jsonValue (.mk (.slice xs)) => some xs
  | _ => none

/-! ## Dynamic value: construction and text form (`uuoskit/structs.go`)

Go strings, and the byte slices converted to and from them, are `String`s here. -/

/-- How a Go call ends: it returns a value, or it panics with a message. -/
inductive Outcome (α : Type) where
  | ret (a : α)
  | panic (msg : String)

/-- Source `JsonValue.GetValue` (`structs.go` 230-232). -/
def JsonValue.GetValue (b : JsonValue) : Iface := b.value

/-- Source `JsonValue.SetValue` (`structs.go` 234-243): the receiver after the call and the
returned error, or the panic. The old content of the receiver `b` is overwritten. -/
def JsonValue.SetValue (_b : JsonValue) (value : Iface) : Outcome (JsonValue × Option String) :=
  match value with
  | .str _ => .ret (JsonValue.mk value, none)
  | .slice _ => .ret (JsonValue.mk value, none)
  | .map _ => .ret (JsonValue.mk value, none)
  | _ => .panic "value must be a string, slice, or map"

/-- Source `NewJsonValue` (`structs.go` 224-228): `SetValue` on the zero value
`JsonValue\x7b\x7d`, its error dropped. -/
def NewJsonValue (value : Iface) : Outcome JsonValue :=
  match (JsonValue.mk Iface.nil).SetValue value with
  | .ret r => .ret r.1
  | .panic msg => .panic msg

/-- The two errors of Go `strconv` number parsing: `ErrSyntax` and `ErrRange`. -/
inductive NumError where
  | invalid
  | range
  deriving DecidableEq, Repr

/-- The digit loop of Go `strconv.ParseUint(s, 10, 64)`: `n` is the value read so far, a
`uint64`. A character that is no decimal digit is a digit value not below the base, or no
digit at all: `ErrSyntax`. The tests on `n` are the overflow tests of the source
(`cutoff = maxUint64/10 + 1`, then the sum wrapping around or exceeding `maxVal`). -/
def ParseUint.loop : Nat → List Char → Nat × Option NumError
  | n, [] => (n, none)
  | n, c :: cs =>
    if '0' ≤ c ∧ c ≤ '9' then
      if n ≥ (2 ^ 64 - 1) / 10 + 1 then
        (2 ^ 64 - 1, some .range)
      else if (n * 10 + (c.toNat - '0'.toNat)) % 2 ^ 64 < n * 10 ∨
          (n * 10 + (c.toNat - '0'.toNat)) % 2 ^ 64 > 2 ^ 64 - 1 then
        (2 ^ 64 - 1, some .range)
      else
        ParseUint.loop ((n * 10 + (c.toNat - '0'.toNat)) % 2 ^ 64) cs
    else
      (0, some .invalid)

/-- Go `strconv.ParseUint(s, 10, 64)` (standard library): the value and the error. -/
def ParseUint (s : List Char) : Nat × Option NumError :=
  if s = [] then (0, some .invalid) else ParseUint.loop 0 s

/-- The part of Go `strconv.ParseInt(s, 10, 64)` after the sign is taken off: `r` is what
`ParseUint` returned for the rest. An `ErrSyntax` is returned as it is; a value out of the
range of `int64` (the value `ParseUint` gives with `ErrRange` included) is an `ErrRange`. -/
def ParseInt.signed (neg : Bool) (r : Nat × Option NumError) : Int × Option NumError :=
  if r.2 = some .invalid then (0, r.2)
  else if neg = false ∧ r.1 ≥ 2 ^ 63 then ((2 : Int) ^ 63 - 1, some .range)
  else if neg = true ∧ r.1 > 2 ^ 63 then (-(2 : Int) ^ 63, some .range)
  else if neg then (-(r.1 : Int), none)
  else ((r.1 : Int), none)

/-- Go `strconv.ParseInt(s, 10, 64)` (standard library): the value and the error. -/
def ParseInt (s : String) : Int × Option NumError :=
  match s.toList with
  | [] => (0, some .invalid)
  | c :: cs =>
    if c = '+' then ParseInt.signed false (ParseUint cs)
    else if c = '-' then ParseInt.signed true (ParseUint cs)
    else ParseInt.signed false (ParseUint (c :: cs))

/-- Go `strconv.IsPrint` (standard library): the test for Latin-1 as the source has it, and
the tables it consults beyond U+00FF as the parameter `wide`. -/
def IsPrint (wide : Nat → Bool) (r : Char) : Bool :=
  if r.toNat ≤ 0xFF then
    if 0x20 ≤ r.toNat ∧ r.toNat ≤ 0x7E then true
    else if 0xA1 ≤ r.toNat ∧ r.toNat ≤ 0xFF then r.toNat ≠ 0xAD
    else false
  else wide r.toNat

/-- The table `lowerhex` of `strconv`, indexed by the low four bits of `n`. -/
def lowerhex (n : Nat) : Char := Nat.digitChar (n % 16)

/-- Go `strconv.appendEscapedRune` for the double quote (standard library): what `Quote`
writes for one character. `Char.ofNat 34` is the double quote, `Char.ofNat 92` the
backslash. -/
def appendEscapedRune (wide : Nat → Bool) (r : Char) : List Char :=
  if r = Char.ofNat 34 ∨ r = Char.ofNat 92 then [Char.ofNat 92, r]
  else if IsPrint wide r then [r]
  else if r.toNat = 7 then [Char.ofNat 92, 'a']
  else if r.toNat = 8 then [Char.ofNat 92, 'b']
  else if r.toNat = 12 then [Char.ofNat 92, 'f']
  else if r.toNat = 10 then [Char.ofNat 92, 'n']
  else if r.toNat = 13 then [Char.ofNat 92, 'r']
  else if r.toNat = 9 then [Char.ofNat 92, 't']
  else if r.toNat = 11 then [Char.ofNat 92, 'v']
  else if r.toNat < 0x20 ∨ r.toNat = 0x7f then
    [Char.ofNat 92, 'x', lowerhex (r.toNat / 16), lowerhex r.toNat]
  else if r.toNat < 0x10000 then
    [Char.ofNat 92, 'u', lowerhex (r.toNat / 4096), lowerhex (r.toNat / 256),
      lowerhex (r.toNat / 16), lowerhex r.toNat]
  else
    [Char.ofNat 92, 'U', lowerhex (r.toNat / 268435456), lowerhex (r.toNat / 16777216),
      lowerhex (r.toNat / 1048576), lowerhex (r.toNat / 65536), lowerhex (r.toNat / 4096),
      lowerhex (r.toNat / 256), lowerhex (r.toNat / 16), lowerhex r.toNat]

/-- The characters `Quote` writes between the two double quotes. -/
def Quote.body (wide : Nat → Bool) : List Char → List Char
  | [] => []
  | r :: rest => appendEscapedRune wide r ++ Quote.body wide rest

/-- Go `strconv.Quote` (standard library): the text as a double-quoted Go string literal.
A `String` holds valid characters only, so the branches of the source for bytes that are
no valid UTF-8 do not arise. -/
def Quote (wide : Nat → Bool) (s : String) : String :=
  String.mk (Char.ofNat 34 :: (Quote.body wide s.toList ++ [Char.ofNat 34]))

/-- The standard-library code that `MarshalJSON` and `UnmarshalJSON` of `JsonValue` call
and that is taken as given: the tables of `strconv.IsPrint` beyond U+00FF, `json.Marshal`
of a dynamic value, and `json.Unmarshal` into a `map[string]JsonValue` and into a
`[]JsonValue`. -/
structure StdLib where
  /-- The tables of `strconv.IsPrint` for the characters above U+00FF. -/
  isPrintWide : Nat → Bool
  /-- The call `json.Marshal(v)`. -/
  jsonMarshal : Iface → Except String String
  /-- The call `json.Unmarshal(data, &m)` for `m` a `map[string]JsonValue`. -/
  jsonUnmarshalMap : String → Except String (List (String × JsonValue))
  /-- The call `json.Unmarshal(data, &m)` for `m` a `[]JsonValue`. -/
  jsonUnmarshalSlice : String → Except String (List JsonValue)

/-- Source `JsonValue.MarshalJSON` (`structs.go` 291-310). -/
def JsonValue.MarshalJSON (L : StdLib) (b : JsonValue) : Except String String :=
  match b.value with
  | .str v =>
    if (ParseInt v).2 = none then
      .ok v
    else
      .ok (Quote L.isPrintWide v)
  | .jsonValue v =>
    match v.value with
    | .str s => .ok s
    | x => L.jsonMarshal x
  | .map v => L.jsonMarshal (.map v)
  | .slice v => L.jsonMarshal (.slice v)
  | _ => .error "bad JsonValue"

/-- Source `JsonValue.UnmarshalJSON` (`structs.go` 312-332): the receiver after the call
and the returned error; `data[0]` panics when `data` is empty. `Char.ofNat 123` is the
opening brace, `Char.ofNat 91` the opening bracket. -/
def JsonValue.UnmarshalJSON (L : StdLib) (b : JsonValue) (data : String) :
    Outcome (JsonValue × Option String) :=
  match data.toList with
  | [] => .panic "index out of range"
  | c :: _ =>
    if c = Char.ofNat 123 then
      match L.jsonUnmarshalMap data with
      | .error err => .ret (b, some err)
      | .ok m => .ret (JsonValue.mk (.map m), none)
    else if c = Char.ofNat 91 then
      match L.jsonUnmarshalSlice data with
      | .error err => .ret (b, some err)
      | .ok m => .ret (JsonValue.mk (.slice m), none)
    else
      .ret (JsonValue.mk (.str data), none)

/-- The kinds of value the specification allows in a node: string, list, map. -/
def Iface.isNodeKind : Iface → Bool
  | .str _ => true
  | .slice _ => true
  | .map _ => true
  | _ => false

/-- Whether a character is a decimal digit. -/
def isDecimalDigit (c : Char) : Bool := decide ('0' ≤ c ∧ c ≤ '9')

/-- The number a run of decimal digits writes, continuing from `n`. -/
def digitsValue : Nat → List Char → Nat
  | n, [] => n
  | n, c :: cs => digitsValue (n * 10 + (c.toNat - '0'.toNat)) cs

/-- A non-empty run of decimal digits. -/
def isDigits (cs : List Char) : Bool := cs ≠ [] && cs.all isDecimalDigit

/-- A base-10 integer as the specification words it: an optional sign followed by one or
more decimal digits. -/
def isDecimalLiteral (s : String) : Bool :=
  match s.toList with
  | [] => false
  | c :: cs => if c = '+' ∨ c = '-' then isDigits cs else isDigits (c :: cs)

/-- A base-10 integer whose value is in the range of a signed 64-bit integer, from
`-2^63` to `2^63 - 1`. -/
def isInt64Literal (s : String) : Bool :=
  match s.toList with
  | [] => false
  | c :: cs =>
    if c = '+' then isDigits cs && decide (digitsValue 0 cs ≤ 2 ^ 63 - 1)
    else if c = '-' then isDigits cs && decide (digitsValue 0 cs ≤ 2 ^ 63)
    else isDigits (c :: cs) && decide (digitsValue 0 (c :: cs) ≤ 2 ^ 63 - 1)

/-- A standard library to evaluate examples with: no character above U+00FF counts as
printable, and the JSON encoder and decoder, which scalar nodes do not reach, fail. -/
def exampleStdLib : StdLib where
  isPrintWide := fun _ => false
  jsonMarshal := fun _ => .error "json: not evaluated"
  jsonUnmarshalMap := fun _ => .error "json: not evaluated"
  jsonUnmarshalSlice := fun _ => .error "json: not evaluated"

/-! ## Fixed-size primitive types (`uuoskit/structs.go`)

A byte is a `Nat` below 256, a byte slice or byte array a `List Nat`; `uint64` and
`uint32` values are `Nat`s below `2^64` and `2^32`. -/

/-- A `[]byte`, and a byte array `[n]byte` when its length is `n`. -/
abbrev Bytes := List Nat

/-- Go builtin `copy(dst, src)`: `dst` after the call. -/
def copy (dst src : Bytes) : Bytes := src.take dst.length ++ dst.drop src.length

/-- Go `binary.LittleEndian.PutUint64(b, v)` (standard library) for `len(b) ≥ 8`: `b` after
the call. -/
def LittleEndian.PutUint64 (b : Bytes) (v : Nat) : Bytes :=
  [v % 256, v / 2 ^ 8 % 256, v / 2 ^ 16 % 256, v / 2 ^ 24 % 256,
    v / 2 ^ 32 % 256, v / 2 ^ 40 % 256, v / 2 ^ 48 % 256, v / 2 ^ 56 % 256] ++ b.drop 8

/-- Go `binary.LittleEndian.Uint64(b)` (standard library) for `len(b) ≥ 8`; the bytes being
below 256, the bitwise or of the shifted bytes is their sum. -/
def LittleEndian.Uint64 (b : Bytes) : Nat :=
  b.getD 0 0 + b.getD 1 0 * 2 ^ 8 + b.getD 2 0 * 2 ^ 16 + b.getD 3 0 * 2 ^ 24 +
    b.getD 4 0 * 2 ^ 32 + b.getD 5 0 * 2 ^ 40 + b.getD 6 0 * 2 ^ 48 + b.getD 7 0 * 2 ^ 56

/-- The little-endian encoding of a `uint32`, as `binary.LittleEndian.PutUint32` writes it. -/
def LittleEndian.PutUint32 (b : Bytes) (v : Nat) : Bytes :=
  [v % 256, v / 2 ^ 8 % 256, v / 2 ^ 16 % 256, v / 2 ^ 24 % 256] ++ b.drop 4

/-- The `uint32` of four little-endian bytes, as `binary.LittleEndian.Uint32` reads it. -/
def LittleEndian.Uint32 (b : Bytes) : Nat :=
  b.getD 0 0 + b.getD 1 0 * 2 ^ 8 + b.getD 2 0 * 2 ^ 16 + b.getD 3 0 * 2 ^ 24

/-- The `Encoder` and `Decoder` of package `uuoskit`, whose source is not in `structs.go`,
as the fixed-size types use them. -/
structure Codec where
  /-- The call `NewDecoder(data).Read(buf)`: `buf` after the call and the error. -/
  Read : (data buf : Bytes) → Bytes × Option String
  /-- The call `NewDecoder(data).Unpack(&x)` for `x` a `uint64`: `x` after the call and the
  error. -/
  UnpackUint64 : (data : Bytes) → (x : Nat) → Nat × Option String
  /-- The call `NewDecoder(data).Unpack(&x)` for `x` a `uint32`: `x` after the call and the
  error. -/
  UnpackUint32 : (data : Bytes) → (x : Nat) → Nat × Option String
  /-- The calls `enc := NewEncoder(n); enc.PackUint64(v); enc.GetBytes()`. -/
  PackUint64 : (n : Nat) → (v : Nat) → Bytes
  /-- The calls `enc := NewEncoder(n); enc.PackUint32(v); enc.GetBytes()`. -/
  PackUint32 : (n : Nat) → (v : Nat) → Bytes

/-- Modelled from the spec: the `Encoder` and `Decoder` of package `uuoskit` are not among
the sources. The decoder reads an exact fixed slice from the front of the data and fails
if fewer bytes remain than asked for, leaving the destination as it was; the encoder
writes 8-byte and 4-byte little-endian counters. -/
def specCodec : Codec where
  Read := fun data buf =>
    if data.length < buf.length then (buf, some "read past end of data")
    else (data.take buf.length, none)
  UnpackUint64 := fun data x =>
    if data.length < 8 then (x, some "read past end of data") else (LittleEndian.Uint64 data, none)
  UnpackUint32 := fun data x =>
    if data.length < 4 then (x, some "read past end of data") else (LittleEndian.Uint32 data, none)
  PackUint64 := fun _ v => LittleEndian.PutUint64 (List.replicate 8 0) v
  PackUint32 := fun _ v => LittleEndian.PutUint32 (List.replicate 4 0) v

/-- Source `type Int128 [16]byte`. -/
abbrev Int128 := Bytes

/-- Source `Int128.Pack` (`structs.go` 56-58). -/
def Int128.Pack (n : Int128) : Bytes := n

/-- Source `Int128.Unpack` (`structs.go` 60-66): the receiver after the call, the count
and the error. -/
def Int128.Unpack (C : Codec) (n : Int128) (data : Bytes) : Int128 × Int × Option String :=
  match C.Read data n with
  | (n', some err) => (n', 0, some err)
  | (n', none) => (n', 16, none)

/-- Source `Int128.Size` (`structs.go` 68-70). -/
def Int128.Size : Int := 16

/-- Source `type Uint128 [16]byte`. -/
abbrev Uint128 := Bytes

/-- Source `Uint128.Pack` (`structs.go` 74-76). -/
def Uint128.Pack (n : Uint128) : Bytes := n

/-- Source `Uint128.Unpack` (`structs.go` 78-84). -/
def Uint128.Unpack (C : Codec) (n : Uint128) (data : Bytes) : Uint128 × Int × Option String :=
  match C.Read data n with
  | (n', some err) => (n', 0, some err)
  | (n', none) => (n', 16, none)

/-- Source `Uint128.Size` (`structs.go` 86-88). -/
def Uint128.Size : Int := 16

/-- Source `Uint128.SetUint64` (`structs.go` 90-94): the receiver after the call. -/
def Uint128.SetUint64 (n : Uint128) (v : Nat) : Uint128 :=
  let tmp : Uint128 := List.replicate 16 0
  LittleEndian.PutUint64 (copy n tmp) v

/-- Source `Uint128.Uint64` (`structs.go` 96-98). -/
def Uint128.Uint64 (n : Uint128) : Nat := LittleEndian.Uint64 n

/-- Source `type Uint256 [32]uint8`. -/
abbrev Uint256 := Bytes

/-- Source `Uint256.Pack` (`structs.go` 102-104). -/
def Uint256.Pack (n : Uint256) : Bytes := n

/-- Source `Uint256.Unpack` (`structs.go` 106-112). -/
def Uint256.Unpack (C : Codec) (n : Uint256) (data : Bytes) : Uint256 × Int × Option String :=
  match C.Read data n with
  | (n', some err) => (n', 0, some err)
  | (n', none) => (n', 32, none)

/-- Source `Uint256.Size` (`structs.go` 114-116). -/
def Uint256.Size : Int := 32

/-- Source `Uint256.SetUint64` (`structs.go` 118-122): the receiver after the call. -/
def Uint256.SetUint64 (n : Uint256) (v : Nat) : Uint256 :=
  let tmp : Uint256 := List.replicate 32 0
  LittleEndian.PutUint64 (copy n tmp) v

/-- Source `Uint256.Uint64` (`structs.go` 124-126). -/
def Uint256.Uint64 (n : Uint256) : Nat := LittleEndian.Uint64 n

/-- Source `type Float128 [16]byte`. -/
abbrev Float128 := Bytes

/-- Source `Float128.Pack` (`structs.go` 130-132). -/
def Float128.Pack (n : Float128) : Bytes := n

/-- Source `Float128.Unpack` (`structs.go` 134-140). -/
def Float128.Unpack (C : Codec) (n : Float128) (data : Bytes) :
    Float128 × Int × Option String :=
  match C.Read data n with
  | (n', some err) => (n', 0, some err)
  | (n', none) => (n', 16, none)

/-- Source `Float128.Size` (`structs.go` 142-144). -/
def Float128.Size : Int := 16

/-- Source `type TimePoint struct` (`structs.go` 146-148): `Elapsed` is a `uint64`. -/
structure TimePoint where
  Elapsed : Nat
  deriving DecidableEq, Repr

/-- Source `TimePoint.Size` (`structs.go` 162-164). -/
def TimePoint.Size : Int := 8

/-- Source `TimePoint.Pack` (`structs.go` 150-154). -/
def TimePoint.Pack (C : Codec) (t : TimePoint) : Bytes := C.PackUint64 8 t.Elapsed

/-- Source `TimePoint.Unpack` (`structs.go` 156-160): what `dec.Unpack` returns is not
looked at. -/
def TimePoint.Unpack (C : Codec) (t : TimePoint) (data : Bytes) :
    TimePoint × Int × Option String :=
  (⟨(C.UnpackUint64 data t.Elapsed).1⟩, 8, none)

/-- Source `type TimePointSec struct` (`structs.go` 166-168): `UTCSeconds` is a `uint32`. -/
structure TimePointSec where
  UTCSeconds : Nat
  deriving DecidableEq, Repr

/-- Source `TimePointSec.Size` (`structs.go` 182-184). -/
def TimePointSec.Size : Int := 4

/-- Source `TimePointSec.Pack` (`structs.go` 170-174). -/
def TimePointSec.Pack (C : Codec) (t : TimePointSec) : Bytes := C.PackUint32 4 t.UTCSeconds

/-- Source `TimePointSec.Unpack` (`structs.go` 176-180). -/
def TimePointSec.Unpack (C : Codec) (t : TimePointSec) (data : Bytes) :
    TimePointSec × Int × Option String :=
  (⟨(C.UnpackUint32 data t.UTCSeconds).1⟩, 4, none)

/-- The standard-library code that the text form of `TimePointSec` calls. -/
structure TimeLib where
  /-- The expression `time.Unix(sec, 0).UTC().Format("2006-01-02T15:04:05")`. -/
  format : (sec : Int) → String
  /-- The escaping `json.Marshal` applies to the content of a string. -/
  jsonEscape : String → String
  /-- The call `time.Parse(layout, value)` followed by `t.Unix()` on its result. -/
  parseUnix : (layout value : String) → Except String Int

/-- Go `json.Marshal(s)` for a string `s`: the escaped content between two double quotes
(`Char.ofNat 34`); it does not fail. -/
def jsonMarshalString (L : TimeLib) (s : String) : String :=
  String.mk (Char.ofNat 34 :: ((L.jsonEscape s).toList ++ [Char.ofNat 34]))

/-- Source `TimePointSec.MarshalJSON` (`structs.go` 186-189). -/
def TimePointSec.MarshalJSON (L : TimeLib) (t : TimePointSec) : Except String String :=
  let s := L.format (t.UTCSeconds : Int)
  .ok (jsonMarshalString L s)

/-- Source `TimePointSec.UnmarshalJSON` (`structs.go` 191-198): the receiver after the
call and the error. The first argument of `time.Parse`, the layout, is the input `b`; the
second, the value to parse, is the constant text. -/
def TimePointSec.UnmarshalJSON (L : TimeLib) (a : TimePointSec) (b : String) :
    TimePointSec × Option String :=
  match L.parseUnix b "2006-01-02T15:04:05" with
  | .error err => (a, some err)
  | .ok unix => (⟨(unix % 2 ^ 32).toNat⟩, none)

/-- Source `type BlockTimestampType struct` (`structs.go` 200-202): `Slot` is a `uint32`. -/
structure BlockTimestampType where
  Slot : Nat
  deriving DecidableEq, Repr

/-- Source `BlockTimestampType.Size` (`structs.go` 216-218). -/
def BlockTimestampType.Size : Int := 4

/-- Source `BlockTimestampType.Pack` (`structs.go` 204-208). -/
def BlockTimestampType.Pack (C : Codec) (t : BlockTimestampType) : Bytes :=
  C.PackUint32 4 t.Slot

/-- Source `BlockTimestampType.Unpack` (`structs.go` 210-214). -/
def BlockTimestampType.Unpack (C : Codec) (t : BlockTimestampType) (data : Bytes) :
    BlockTimestampType × Int × Option String :=
  (⟨(C.UnpackUint32 data t.Slot).1⟩, 4, none)

/-- A time library to evaluate examples with: every time is formatted as the epoch, nothing
is escaped, and parsing fails unless layout and value start with the same character. -/
def exampleTimeLib : TimeLib where
  format := fun _ => "1970-01-01T00:00:00"
  jsonEscape := fun s => s
  parseUnix := fun layout value =>
    if layout.toList.head? = value.toList.head? then .ok 0 else .error "cannot parse"

/-! ## Exported operations that create a transaction (`lib.go`) -/

/-- The code that `transaction_new_`, `transaction_from_json_` and `transaction_unpack_`
call and whose source is not in `lib.go` or `structs.go`. `H` is the state that code reads
and writes, `Tx` the type `Transaction`; a `*Transaction` is a `Ptr` as well. -/
structure TxExtern (H : Type) (Tx : Type) where
  /-- The call `NewTransaction(int(expiration))`. -/
  NewTransaction : Int → H → H × Ptr
  /-- The method `(*Transaction).SetReferenceBlock(refBlock)`, with the error it may
  return. -/
  SetReferenceBlock : Ptr → String → H → H × Option String
  /-- The call `NewPackedTransaction(tx)`. -/
  NewPackedTransaction : Ptr → H → H × Ptr
  /-- The call `NewPackedTransactionFromString(tx)`. -/
  NewPackedTransactionFromString : String → H → H × Except String Ptr
  /-- The method `(*PackedTransaction).SetChainId(chainId) error`. -/
  SetChainId : Ptr → String → H → H × Option String
  /-- The zero value `Transaction\x7b\x7d`. -/
  zero : Tx
  /-- The method `(*Transaction).Unpack(data) (int, error)`: the receiver after the call
  and what is returned. -/
  Unpack : Tx → Bytes → H → H × Tx × Except String Int
  /-- The call `json.Marshal(t)` for a `Transaction`. -/
  jsonMarshal : Tx → H → H × Except String String

/-- Source `transaction_new_` (`lib.go` 120-129): what `SetReferenceBlock` and `SetChainId`
return is not looked at. -/
def transaction_new_ {H Tx : Type} (T : TxExtern H Tx) (w : World H)
    (expiration : Int) (refBlock chainId : String) : World H × Int :=
  let r1 := T.NewTransaction expiration w.ext
  let r2 := T.SetReferenceBlock r1.2 refBlock r1.1
  let r3 := T.NewPackedTransaction r1.2 r2.1
  let r4 := T.SetChainId r3.2 chainId r3.1
  let r5 := addPackedTx w.gPackedTxs r3.2
  (⟨r5.1, r4.1⟩, r5.2)

/-- Source `transaction_from_json_` (`lib.go` 131-141): what `SetChainId` returns is not
looked at, and the handle is rendered as it is. -/
def transaction_from_json_ {H Tx : Type} (T : TxExtern H Tx) (w : World H)
    (tx chainId : String) : World H × Envelope :=
  match T.NewPackedTransactionFromString tx w.ext with
  | (h, .error err) => (⟨w.gPackedTxs, h⟩, renderError err)
  | (h, .ok packedTx) =>
    let r := T.SetChainId packedTx chainId h
    let i := addPackedTx w.gPackedTxs packedTx
    (⟨i.1, r.1⟩, renderData (.int i.2))

/-- Source `transaction_unpack_` (`lib.go` 258-273): what `t.Unpack` returns is not looked
at. -/
def transaction_unpack_ {H Tx : Type} (T : TxExtern H Tx) (w : World H)
    (data : String) : World H × Envelope :=
  match hexDecodeString data with
  | .error err => (w, renderError err)
  | .ok _data =>
    let r := T.Unpack T.zero _data w.ext
    match T.jsonMarshal r.2.1 r.1 with
    | (h, .error err) => (⟨w.gPackedTxs, h⟩, renderError err)
    | (h, .ok js) => (⟨w.gPackedTxs, h⟩, renderData (.str js))

/-! ## Action data of `transaction_add_action_`: notions of the specification -/

/-- Whether a character is a hexadecimal digit. -/
def isHexDigit (c : Char) : Bool :=
  decide (('0' ≤ c ∧ c ≤ '9') ∨ ('a' ≤ c ∧ c ≤ 'f') ∨ ('A' ≤ c ∧ c ≤ 'F'))

/-- A well-formed hex string: an even number of characters, all hexadecimal digits (the
empty string included). -/
def isHexText (s : String) : Bool :=
  decide (s.toList.length % 2 = 0) && s.toList.all isHexDigit

/-- What `transaction_add_action_` does once the data of the action is known to be `data`
and the state behind `Extern` is `h`: it parses the permissions, builds the action with
that data and adds it to the transaction of the handle. -/
def addActionWithData {H Action : Type} (X : Extern H Action) (w : World H) (idx : Int)
    (account name permissions : String) (data : Bytes) (h : H) : World H × Envelope :=
  match X.unmarshalPerms permissions with
  | .error err => (⟨w.gPackedTxs, h⟩, renderError err)
  | .ok perms =>
    match X.AddAction (w.gPackedTxs.at idx)
        (perms.foldl (fun a kv => X.AddPermission a kv.1 kv.2)
          (X.SetData (X.NewAction account name) data)) h with
    | (h', some err) => (⟨w.gPackedTxs, h'⟩, renderError err)
    | (h', none) => (⟨w.gPackedTxs, h'⟩, renderData (.str "ok"))

/-- Code behind `Extern` to evaluate examples with: the state is the list of the data of
the actions added so far, an action is its data, no ABI is loaded and the permissions are
empty. -/
def exampleExtern : Extern (List Bytes) Bytes where
  SetChainId := fun _ _ h => (h, none)
  AddAction := fun _ a h => (h ++ [a], none)
  Sign := fun _ _ h => (h, .error "no key")
  SignByPrivateKey := fun _ _ h => (h, .error "no key")
  Pack := fun _ _ h => (h, "")
  Marshal := fun _ h => (h, "")
  PackActionArgs := fun _ _ _ h => (h, .error "abi not found")
  unmarshalPerms := fun _ => .ok []
  NewAction := fun _ _ => []
  SetData := fun _ d => d
  AddPermission := fun a _ _ => a

/-! ## Key generation (`lib.go`) -/

/-- An `io.Reader` as the byte stream it delivers: `rand i` is byte `i` of the stream, or
`none` when the reader returns an error, the end of the stream included, before it
delivers that byte. -/
abbrev Reader := Nat → Option Nat

/-- The reader over a finite run of bytes, which ends with an error after the last one. -/
def Reader.ofBytes (data : Bytes) : Reader := fun i => data[i]?

/-- Go `io.ReadFull(rand, buf)` (standard library) for a buffer of `n` bytes, the reader
standing at offset `off` of its stream: the bytes that fill the buffer, or `none` for the
error it returns when the stream does not deliver all of them. -/
def ReadFull (rand : Reader) : Nat → Nat → Option Bytes
  | _, 0 => some []
  | off, n + 1 =>
    match rand off with
    | none => none
    | some b =>
      match ReadFull rand (off + 1) n with
      | none => none
      | some rest => some (b :: rest)

/-- Go `(*big.Int).SetBytes(buf)` (standard library): the bytes read as a big-endian
unsigned integer. -/
def SetBytes (buf : Bytes) : Nat := buf.foldl (fun d b => d * 256 + b) 0

/-- The constant `N` of `genPrivKey` (`lib.go` 471). -/
def genPrivKey.N : Nat :=
  SetBytes [255, 255, 255, 255, 255, 255, 255, 255, 255, 255, 255, 255, 255, 255, 255, 254,
    186, 174, 220, 230, 175, 72, 160, 59, 191, 210, 94, 140, 208, 54, 65, 65]

/-- The loop `for \x7b ... \x7d` of `genPrivKey`, the reader standing at offset `off`. The
first argument bounds the number of iterations: `none` is the loop still running when the
bound is used up. A failed `io.ReadFull` is the `panic(err)` of the source, the message
standing for the error of the reader; `0 < d.Sign()` is `0 < d` and `d.Cmp(N) < 0` is
`d < N`. -/
def genPrivKey.loop (rand : Reader) : Nat → Nat → Option (Outcome Bytes)
  | 0, _ => none
  | fuel + 1, off =>
    match ReadFull rand off 32 with
    | none => some (.panic "unexpected EOF")
    | some privKeyBytes =>
      if 0 < SetBytes privKeyBytes ∧ SetBytes privKeyBytes < genPrivKey.N then
        some (.ret privKeyBytes)
      else
        genPrivKey.loop rand fuel (off + 32)

/-- Source `genPrivKey` (`lib.go` 464-490), run for at most `fuel` iterations of its loop. -/
def genPrivKey (rand : Reader) (fuel : Nat) : Option (Outcome Bytes) :=
  genPrivKey.loop rand fuel 0

/-- The `j`-th consecutive 32-byte block of a stream is `k`: the stream delivers bytes
`32 j` to `32 j + 31`, and they are the bytes of `k`. -/
def isBlock (rand : Reader) (j : Nat) (k : Bytes) : Prop :=
  k.length = 32 ∧ ∀ i, i < 32 → rand (32 * j + i) = k[i]?

/-! ## Handle table: lemmas -/

/-- What the scan of `addPackedTx` computes: it either overwrites the lowest empty slot or,
when there is none, appends. -/
theorem addPackedTx.loop_spec (tbl : Table) (p : Ptr) :
    ∀ (n i : Nat), n + i = tbl.length → (∀ j, j < i → tbl[j]? ≠ some none) →
      (∃ k, i ≤ k ∧ k < tbl.length ∧ tbl[k]? = some none ∧ (∀ j, j < k → tbl[j]? ≠ some none) ∧
          addPackedTx.loop tbl p n i = (tbl.set k p, (k : Int))) ∨
      ((∀ j, j < tbl.length → tbl[j]? ≠ some none) ∧
          addPackedTx.loop tbl p n i = (tbl ++ [p], (tbl.length : Int))) := by
  intro n
  induction n with
  | zero =>
    intro i hi hlow
    right
    have hi' : i = tbl.length := by omega
    subst hi'
    refine ⟨hlow, ?_⟩
    simp [addPackedTx.loop]
  | succ n ih =>
    intro i hi hlow
    by_cases hs : tbl[i]? = some none
    · left
      exact ⟨i, le_refl i, by omega, hs, hlow, by simp [addPackedTx.loop, hs]⟩
    · have hlow' : ∀ j, j < i + 1 → tbl[j]? ≠ some none := by
        intro j hj
        by_cases hji : j = i
        · subst hji; exact hs
        · exact hlow j (by omega)
      rcases ih (i + 1) (by omega) hlow' with ⟨k, hk1, hk2, hk3, hk4, hk5⟩ | ⟨h1, h2⟩
      · left
        exact ⟨k, by omega, hk2, hk3, hk4, by simp [addPackedTx.loop, hs, hk5]⟩
      · right
        exact ⟨h1, by simp [addPackedTx.loop, hs, h2]⟩

/-- The three outcomes of `addPackedTx`. -/
theorem addPackedTx_cases (tbl : Table) (p : Ptr) :
    (1024 ≤ tbl.length ∧ addPackedTx tbl p = (tbl, -1)) ∨
    (tbl.length < 1024 ∧ ∃ k, k < tbl.length ∧ tbl[k]? = some none ∧
        (∀ j, j < k → tbl[j]? ≠ some none) ∧ addPackedTx tbl p = (tbl.set k p, (k : Int))) ∨
    (tbl.length < 1024 ∧ (∀ j, j < tbl.length → tbl[j]? ≠ some none) ∧
        addPackedTx tbl p = (tbl ++ [p], (tbl.length : Int))) := by
  by_cases h : 1024 ≤ tbl.length
  · left
    exact ⟨h, by simp [addPackedTx, h]⟩
  · have hlt : tbl.length < 1024 := by omega
    have hdef : addPackedTx tbl p = addPackedTx.loop tbl p tbl.length 0 := by
      simp [addPackedTx, h]
    rcases addPackedTx.loop_spec tbl p tbl.length 0 (by omega) (by intro j hj; omega) with
      ⟨k, _, hk2, hk3, hk4, hk5⟩ | ⟨h1, h2⟩
    · right; left
      exact ⟨hlt, k, hk2, hk3, hk4, by rw [hdef, hk5]⟩
    · right; right
      exact ⟨hlt, h1, by rw [hdef, h2]⟩

/-- A table at capacity rejects every allocation and stays as it is. -/
theorem addPackedTx_of_full (tbl : Table) (p : Ptr) (h : 1024 ≤ tbl.length) :
    addPackedTx tbl p = (tbl, -1) := by
  simp [addPackedTx, h]

/-- With no empty slot and room left, `addPackedTx` appends and returns the old length. -/
theorem addPackedTx_of_live (tbl : Table) (p : Ptr) (hlt : tbl.length < 1024)
    (hlive : ∀ j, j < tbl.length → tbl[j]? ≠ some none) :
    addPackedTx tbl p = (tbl ++ [p], (tbl.length : Int)) := by
  rcases addPackedTx_cases tbl p with ⟨h, _⟩ | ⟨_, k, hk, hk0, _, _⟩ | ⟨_, _, h⟩
  · omega
  · exact absurd hk0 (hlive k hk)
  · exact h

/-- Appending a live pointer to a table without empty slot leaves no empty slot. -/
theorem live_append (tbl : Table) (a : Nat)
    (hlive : ∀ j, j < tbl.length → tbl[j]? ≠ some none) :
    ∀ j, j < (tbl ++ [some a]).length → (tbl ++ [some a])[j]? ≠ some none := by
  intro j hj
  by_cases hjl : j < tbl.length
  · rw [List.getElem?_append_left hjl]
    exact hlive j hjl
  · have hje : j = tbl.length := by
      simp at hj
      omega
    subst hje
    simp

/-- Successive allocations of live pointers in a table without empty slot, while there is
room: each is appended and gets the next handle. -/
theorem addMany_of_live : ∀ (txs : List Nat) (tbl : Table),
    (∀ j, j < tbl.length → tbl[j]? ≠ some none) → tbl.length + txs.length ≤ 1024 →
    addMany tbl (txs.map some) =
      (tbl ++ txs.map some, (List.range' tbl.length txs.length).map Int.ofNat) := by
  intro txs
  induction txs with
  | nil => intro tbl _ _; simp [addMany]
  | cons a rest ih =>
    intro tbl hlive hlen
    have hlt : tbl.length < 1024 := by
      simp at hlen
      omega
    have hstep := addPackedTx_of_live tbl (some a) hlt hlive
    have hrec := ih (tbl ++ [some a]) (live_append tbl a hlive) (by simp at hlen ⊢; omega)
    simp only [List.map_cons, addMany, hstep, hrec]
    simp [List.range'_succ]

/-- A run of allocations splits at any point into two runs. -/
theorem addMany_append : ∀ (ps qs : List Ptr) (tbl : Table),
    addMany tbl (ps ++ qs) =
      ((addMany (addMany tbl ps).1 qs).1, (addMany tbl ps).2 ++ (addMany (addMany tbl ps).1 qs).2) := by
  intro ps
  induction ps with
  | nil => intro qs tbl; simp [addMany]
  | cons p rest ih =>
    intro qs tbl
    simp only [List.cons_append, addMany, List.append_eq]
    rw [ih]

/-- The table after 1024 allocations from the empty table. -/
theorem addMany_fill (txs : List Nat) (h : txs.length = 1024) :
    addMany [] (txs.map some) = (txs.map some, (List.range 1024).map Int.ofNat) := by
  have := addMany_of_live txs [] (by intro j hj; simp at hj) (by simp [h])
  rw [this, h]
  simp [List.range_eq_range']

/-- The handles `validateIndex` accepts: those that address a live pointer. -/
theorem validateIndex_eq_none_iff (tbl : Table) (idx : Int) :
    validateIndex tbl idx = none ↔ (0 ≤ idx ∧ ∃ a, tbl[idx.toNat]? = some (some a)) := by
  unfold validateIndex
  by_cases hr : idx < 0 ∨ idx ≥ (tbl.length : Int)
  · simp only [hr, if_true]
    constructor
    · intro h; simp at h
    · rintro ⟨h0, a, ha⟩
      have hlt := (List.getElem?_eq_some_iff.mp ha).1
      omega
  · simp only [hr, if_false]
    have h0 : 0 ≤ idx := by omega
    have hlt : idx.toNat < tbl.length := by omega
    rw [List.getElem?_eq_getElem hlt]
    cases hslot : tbl[idx.toNat] with
    | none => simp
    | some a => simp [h0]

/-! ## Handle table: the claims -/

/-- C1, the code at the failing input: the table is filled by 1024 allocations from the
empty table, handle 0 is freed, and the next `addPackedTx` of a non-nil transaction
returns -1 and leaves the table as it is, slot 0 still empty; the freed slot is not
reused, because the capacity test on the length comes before the scan for an empty
slot. -/
theorem addPackedTx_full_then_freed_rejects :
    (transaction_free_ (addMany [] ((List.range 1024).map some)).1 0)[0]? = some none ∧
    addPackedTx (transaction_free_ (addMany [] ((List.range 1024).map some)).1 0) (some 5000) =
      (transaction_free_ (addMany [] ((List.range 1024).map some)).1 0, -1) := by
  have hfill := addMany_fill (List.range 1024) (by simp)
  have hlen : (transaction_free_ ((List.range 1024).map some) 0).length = 1024 := by
    simp [transaction_free_]
  rw [hfill]
  refine ⟨?_, addPackedTx_of_full _ _ (by simp only [hlen]; omega)⟩
  simp [transaction_free_, List.getElem?_set]

/-- C2: from the empty table and with no free in between, 1025 successive `addPackedTx`
calls with non-nil transactions return the handles 0, 1, ..., 1023 and then -1. -/
theorem addPackedTx_fresh_handles (txs : List Nat) (h : txs.length = 1025) :
    (addMany [] (txs.map some)).2 = (List.range 1024).map Int.ofNat ++ [-1] := by
  have hsplit : txs = txs.take 1024 ++ txs.drop 1024 := (List.take_append_drop 1024 txs).symm
  have htake : (txs.take 1024).length = 1024 := by simp [h]
  have hfill := addMany_fill (txs.take 1024) htake
  obtain ⟨x, hx⟩ : ∃ x, txs.drop 1024 = [x] := by
    have hd : (txs.drop 1024).length = 1 := by simp [h]
    match hm : txs.drop 1024, hd with
    | [x], _ => exact ⟨x, rfl⟩
  rw [hsplit, List.map_append, addMany_append, hfill, hx]
  have hfull : addPackedTx ((txs.take 1024).map some) (some x) = ((txs.take 1024).map some, -1) :=
    addPackedTx_of_full _ _ (by simp [h])
  simp only [List.map_cons, List.map_nil, addMany, hfull]

/-- C2 at a concrete run: the transactions at addresses 0, ..., 1024. -/
theorem addPackedTx_fresh_handles_witness :
    (List.range 1025).length = 1025 ∧
    (addMany [] ((List.range 1025).map some)).2 =
      (List.range 1024).map Int.ofNat ++ [-1] :=
  ⟨by simp, addPackedTx_fresh_handles (List.range 1025) (by simp)⟩

/-- C4: `validateIndex` returns an error exactly when the index is negative, not below the
table length, or addresses an empty slot; it returns nil exactly when the index addresses
a live packed transaction. -/
theorem validateIndex_iff (tbl : Table) (idx : Int) :
    (validateIndex tbl idx ≠ none ↔
      (idx < 0 ∨ idx ≥ (tbl.length : Int) ∨ tbl[idx.toNat]? = some none)) ∧
    (validateIndex tbl idx = none ↔ (0 ≤ idx ∧ ∃ a, tbl[idx.toNat]? = some (some a))) := by
  refine ⟨?_, validateIndex_eq_none_iff tbl idx⟩
  rw [Ne, validateIndex_eq_none_iff]
  constructor
  · intro hn
    by_cases h0 : idx < 0
    · exact Or.inl h0
    · by_cases hlen : idx ≥ (tbl.length : Int)
      · exact Or.inr (Or.inl hlen)
      · right; right
        have hlt : idx.toNat < tbl.length := by omega
        rw [List.getElem?_eq_getElem hlt]
        cases hslot : tbl[idx.toNat] with
        | none => rfl
        | some a =>
          exact absurd ⟨by omega, a, by rw [List.getElem?_eq_getElem hlt, hslot]⟩ hn
  · rintro (h | h | h) ⟨h0, a, ha⟩
    · omega
    · have hnone : tbl[idx.toNat]? = none := by
        rw [List.getElem?_eq_none_iff]
        omega
      rw [hnone] at ha
      simp at ha
    · rw [h] at ha
      simp at ha

/-- C5: `transaction_free_` leaves the table as it is when the handle is out of range or
its slot is already empty; otherwise it empties that slot and changes neither another
slot nor the length. -/
theorem transaction_free_frame (tbl : Table) (h : Int) :
    ((h < 0 ∨ h ≥ (tbl.length : Int) ∨ tbl[h.toNat]? = some none) →
      transaction_free_ tbl h = tbl) ∧
    (¬ (h < 0 ∨ h ≥ (tbl.length : Int) ∨ tbl[h.toNat]? = some none) →
      (transaction_free_ tbl h).length = tbl.length ∧
      (transaction_free_ tbl h)[h.toNat]? = some none ∧
      ∀ i, i ≠ h.toNat → (transaction_free_ tbl h)[i]? = tbl[i]?) := by
  unfold transaction_free_
  constructor
  · intro hc
    by_cases hr : h < 0 ∨ h ≥ (tbl.length : Int)
    · simp [hr]
    · have hs : tbl[h.toNat]? = some none := by
        rcases hc with hc | hc | hc
        · exact absurd (Or.inl hc) hr
        · exact absurd (Or.inr hc) hr
        · exact hc
      simp only [hr, if_false]
      apply List.ext_getElem?
      intro i
      rw [List.getElem?_set]
      by_cases hi : h.toNat = i
      · subst hi
        have hlt : h.toNat < tbl.length := by omega
        simp [hlt, hs]
      · simp [hi]
  · intro hc
    have hr : ¬ (h < 0 ∨ h ≥ (tbl.length : Int)) := by
      intro hr
      rcases hr with hr | hr
      · exact hc (Or.inl hr)
      · exact hc (Or.inr (Or.inl hr))
    have hlt : h.toNat < tbl.length := by omega
    simp only [hr, if_false]
    refine ⟨by simp, by simp [List.getElem?_set, hlt], ?_⟩
    intro i hi
    rw [List.getElem?_set]
    simp [Ne.symm hi]

/-- C6: after `addPackedTx`, every slot that held a live transaction holds the same one, at
most one slot differs between the old and the new table, and a call that returns -1
leaves the table as it is. -/
theorem addPackedTx_frame (tbl : Table) (p : Ptr) :
    (∀ (i : Nat) (a : Nat), tbl[i]? = some (some a) → (addPackedTx tbl p).1[i]? = some (some a)) ∧
    (∃ k : Nat, ∀ i : Nat, i ≠ k → (addPackedTx tbl p).1[i]? = tbl[i]?) ∧
    ((addPackedTx tbl p).2 = -1 → (addPackedTx tbl p).1 = tbl) := by
  rcases addPackedTx_cases tbl p with ⟨_, h⟩ | ⟨_, k, hk, hk0, _, h⟩ | ⟨_, _, h⟩
  · rw [h]
    exact ⟨fun i a hi => hi, ⟨0, fun i _ => rfl⟩, fun _ => rfl⟩
  · rw [h]
    refine ⟨?_, ⟨k, ?_⟩, ?_⟩
    · intro i a hi
      have hik : k ≠ i := by
        intro hik
        subst hik
        rw [hk0] at hi
        simp at hi
      simp [List.getElem?_set, hik, hi]
    · intro i hi
      show (tbl.set k p)[i]? = tbl[i]?
      rw [List.getElem?_set]
      simp [Ne.symm hi]
    · intro hneg
      simp at hneg
  · rw [h]
    refine ⟨?_, ⟨tbl.length, ?_⟩, ?_⟩
    · intro i a hi
      have hil : i < tbl.length := by
        by_contra hcon
        have : tbl[i]? = none := by
          rw [List.getElem?_eq_none_iff]
          omega
        rw [this] at hi
        simp at hi
      simpa [List.getElem?_append_left hil] using hi
    · intro i hi
      by_cases hil : i < tbl.length
      · simp [List.getElem?_append_left hil]
      · have h1 : tbl[i]? = none := by
          rw [List.getElem?_eq_none_iff]
          omega
        have h2 : (tbl ++ [p])[i]? = none := by
          rw [List.getElem?_eq_none_iff]
          simp
          omega
        simp only [h1, h2]
    · intro hneg
      simp at hneg

/-- C7: `addPackedTx` with a non-nil transaction returns -1, or a handle `h` with
`0 ≤ h < 1024` that addressed no live transaction before the call, whose slot holds the
transaction after it and which `validateIndex` then accepts (the bound on the table
length that the claim assumes is not needed). -/
theorem addPackedTx_handle (tbl : Table) (a : Nat) :
    (addPackedTx tbl (some a)).2 = -1 ∨
    (0 ≤ (addPackedTx tbl (some a)).2 ∧ (addPackedTx tbl (some a)).2 < 1024 ∧
      (¬ ∃ b, tbl[(addPackedTx tbl (some a)).2.toNat]? = some (some b)) ∧
      (addPackedTx tbl (some a)).1[(addPackedTx tbl (some a)).2.toNat]? = some (some a) ∧
      validateIndex (addPackedTx tbl (some a)).1 (addPackedTx tbl (some a)).2 = none) := by
  rcases addPackedTx_cases tbl (some a) with ⟨_, h⟩ | ⟨hlt, k, hk, hk0, _, h⟩ | ⟨hlt, _, h⟩
  · left
    rw [h]
  · right
    rw [h]
    have hslot : (tbl.set k (some a))[k]? = some (some a) := by
      simp [List.getElem?_set, hk]
    refine ⟨by simp, by simp; omega, ?_, by simpa using hslot, ?_⟩
    · rintro ⟨b, hb⟩
      simp only [Int.toNat_ofNat] at hb
      rw [hk0] at hb
      simp at hb
    · exact (validateIndex_eq_none_iff _ _).2 ⟨by simp, a, by simpa using hslot⟩
  · right
    rw [h]
    have hslot : (tbl ++ [some a])[tbl.length]? = some (some a) := by simp
    refine ⟨by simp, by simp; omega, ?_, by simp, ?_⟩
    · rintro ⟨b, hb⟩
      simp at hb
    · exact (validateIndex_eq_none_iff _ _).2 ⟨by simp, a, by simp⟩

/-! ## Exported operations: empty slots -/

/-- An index whose slot is empty is rejected by `validateIndex`. -/
theorem validateIndex_of_empty (tbl : Table) (idx : Int)
    (hs : tbl[idx.toNat]? = some none) : validateIndex tbl idx = some "invalid idx" := by
  unfold validateIndex
  split
  · rfl
  · simp [hs]

/-- The five operations that call `validateIndex` answer an empty slot with the error
`invalid idx` and leave the state as it is, whatever the methods behind `Extern` do: none
of them is reached. -/
theorem validated_operations_reject_empty {H Action : Type} (X : Extern H Action) (w : World H)
    (idx : Int) (hs : w.gPackedTxs[idx.toNat]? = some none) :
    (∀ account name data permissions,
      transaction_add_action_ X w idx account name data permissions =
        (w, renderError "invalid idx")) ∧
    (∀ pub, transaction_sign_ X w idx pub = (w, renderError "invalid idx")) ∧
    (∀ priv, transaction_sign_by_private_key_ X w idx priv = (w, renderError "invalid idx")) ∧
    (∀ compress, transaction_pack_ X w idx compress = (w, renderError "invalid idx")) ∧
    transaction_marshal_ X w idx = (w, renderError "invalid idx") := by
  have hv := validateIndex_of_empty w.gPackedTxs idx hs
  refine ⟨?_, ?_, ?_, ?_, ?_⟩
  · intro account name data permissions
    simp only [transaction_add_action_, hv]
  · intro pub
    simp only [transaction_sign_, hv]
  · intro priv
    simp only [transaction_sign_by_private_key_, hv]
  · intro compress
    simp only [transaction_pack_, hv]
  · simp only [transaction_marshal_, hv]

/-- C3, the code at the failing input: after one transaction is created and freed the
table is `[nil]`; `validateIndex` rejects handle 0, yet `transaction_set_chain_id_`, which
tests the range only, does not return the error of an invalid handle: it calls
`SetChainId` on the nil pointer of the empty slot and its result is whatever that call
gives. -/
theorem transaction_set_chain_id_empty_slot {H Action : Type} (X : Extern H Action) (ext : H)
    (chainId : String) :
    transaction_free_ (addPackedTx [] (some 7)).1 0 = [none] ∧
    validateIndex [none] 0 = some "invalid idx" ∧
    transaction_set_chain_id_ X ⟨[none], ext⟩ 0 chainId =
      (match X.SetChainId none chainId ext with
       | (h, some err) => (⟨[none], h⟩, renderError err)
       | (h, none) => (⟨[none], h⟩, renderData (.str "ok"))) := by
  refine ⟨by decide, by decide, ?_⟩
  simp [transaction_set_chain_id_, Table.at]

/-! ## Dynamic value: lemmas -/

/-- The loop of `Get` over a path in two parts. -/
theorem JsonValue.Get.loop_append : ∀ (p q : List Key) (v : Iface),
    JsonValue.Get.loop v (p ++ q) =
      (match JsonValue.Get.loop v p with
       | .error e => .error e
       | .ok v' => JsonValue.Get.loop v' q) := by
  intro p
  induction p with
  | nil => intro q v; rfl
  | cons k rest ih =>
    intro q v
    simp only [List.cons_append, JsonValue.Get.loop]
    cases hstep : JsonValue.Get.step v k with
    | error e => rfl
    | ok v' => exact ih q v'

/-- After a prefix that `Get` walks to the value `v`, a segment that fails on `v` makes the
whole call fail with that error. -/
theorem JsonValue.Get_error_of_step (b : JsonValue) (p q : List Key) (k : Key) (v : Iface)
    (e : String) (hp : JsonValue.Get.loop b.value p = .ok v)
    (hk : JsonValue.Get.step v k = .error e) :
    JsonValue.Get b (p ++ k :: q) = .error e := by
  have hne : ¬ (p ++ k :: q).length = 0 := by simp
  simp only [JsonValue.Get, hne, if_false]
  rw [JsonValue.Get.loop_append, hp]
  simp only [JsonValue.Get.loop, hk]

/-- A string segment on a value that is no map. -/
theorem JsonValue.Get.step_str_not_map (v : Iface) (s : String) (h : v.isMap = false) :
    JsonValue.Get.step v (.str s) = .error "JsonValue is not a map" := by
  cases v with
  | map m => simp [Iface.isMap] at h
  | jsonValue w =>
    cases w with
    | mk x => cases x <;> first | rfl | simp [Iface.isMap] at h
  | nil => rfl
  | str _ => rfl
  | slice _ => rfl
  | other _ => rfl

/-- An integer segment on a value that is no list. -/
theorem JsonValue.Get.step_int_not_list (v : Iface) (i : Int) (h : v.asList = none) :
    JsonValue.Get.step v (.int i) = .error "JsonValue is not an array" := by
  cases v with
  | slice xs => simp [Iface.asList] at h
  | jsonValue w =>
    cases w with
    | mk x => cases x <;> first | rfl | simp [Iface.asList] at h
  | nil => rfl
  | str _ => rfl
  | map _ => rfl
  | other _ => rfl

/-- An integer segment that is no index of the list at hand. -/
theorem JsonValue.Get.step_int_out_of_range (v : Iface) (i : Int) (xs : List JsonValue)
    (h : v.asList = some xs) (hi : i < 0 ∨ i ≥ (xs.length : Int)) :
    JsonValue.Get.step v (.int i) = .error "index out of range" := by
  cases v with
  | slice ys =>
    simp only [Iface.asList, Option.some.injEq] at h
    subst h
    simp [JsonValue.Get.step, hi]
  | jsonValue w =>
    cases w with
    | mk x =>
      cases x with
      | slice ys =>
        simp only [Iface.asList, Option.some.injEq] at h
        subst h
        simp [JsonValue.Get.step, JsonValue.value, hi]
      | nil => simp [Iface.asList] at h
      | str _ => simp [Iface.asList] at h
      | map _ => simp [Iface.asList] at h
      | jsonValue _ => simp [Iface.asList] at h
      | other _ => simp [Iface.asList] at h
  | nil => simp [Iface.asList] at h
  | str _ => simp [Iface.asList] at h
  | map _ => simp [Iface.asList] at h
  | other _ => simp [Iface.asList] at h

/-- One segment of `Get` on a boxed node that has the child asked for. -/
theorem JsonValue.Get.step_boxed_of_child (n c : JsonValue) (k : Key)
    (h : n.child k = some c) :
    JsonValue.Get.step (.jsonValue n) k = .ok (.jsonValue c) := by
  cases n with
  | mk x =>
    cases k with
    | str s =>
      cases x <;> simp [JsonValue.child, JsonValue.value] at h
      simp [JsonValue.Get.step, JsonValue.value, mapIndex, h]
    | int i =>
      cases x with
      | slice xs =>
        simp [JsonValue.child, JsonValue.value] at h
        obtain ⟨h0, hc⟩ := h
        obtain ⟨hlt, _⟩ := List.getElem?_eq_some_iff.mp hc
        have hr : ¬ (i < 0 ∨ i ≥ (xs.length : Int)) := by omega
        simp [JsonValue.Get.step, JsonValue.value, hr, hc]
      | nil => simp [JsonValue.child, JsonValue.value] at h
      | str _ => simp [JsonValue.child, JsonValue.value] at h
      | map _ => simp [JsonValue.child, JsonValue.value] at h
      | jsonValue _ => simp [JsonValue.child, JsonValue.value] at h
      | other _ => simp [JsonValue.child, JsonValue.value] at h
    | other t =>
      cases x <;> simp [JsonValue.child, JsonValue.value] at h

/-- The first segment of `Get`, applied to the field `value` of the receiver, when the
receiver has the child asked for. -/
theorem JsonValue.Get.step_value_of_child (n c : JsonValue) (k : Key)
    (h : n.child k = some c) :
    JsonValue.Get.step n.value k = .ok (.jsonValue c) := by
  cases n with
  | mk x =>
    cases k with
    | str s =>
      cases x <;> simp [JsonValue.child, JsonValue.value] at h
      simp [JsonValue.Get.step, JsonValue.value, mapIndex, h]
    | int i =>
      cases x with
      | slice xs =>
        simp [JsonValue.child, JsonValue.value] at h
        obtain ⟨h0, hc⟩ := h
        obtain ⟨hlt, _⟩ := List.getElem?_eq_some_iff.mp hc
        have hr : ¬ (i < 0 ∨ i ≥ (xs.length : Int)) := by omega
        simp [JsonValue.Get.step, JsonValue.value, hr, hc]
      | nil => simp [JsonValue.child, JsonValue.value] at h
      | str _ => simp [JsonValue.child, JsonValue.value] at h
      | map _ => simp [JsonValue.child, JsonValue.value] at h
      | jsonValue _ => simp [JsonValue.child, JsonValue.value] at h
      | other _ => simp [JsonValue.child, JsonValue.value] at h
    | other t =>
      cases x <;> simp [JsonValue.child, JsonValue.value] at h

/-- The loop of `Get` from a boxed node along a path the node has. -/
theorem JsonValue.Get.loop_boxed_of_follow : ∀ (p : List Key) (n r : JsonValue),
    n.follow p = some r → JsonValue.Get.loop (.jsonValue n) p = .ok (.jsonValue r) := by
  intro p
  induction p with
  | nil =>
    intro n r h
    simp only [JsonValue.follow, Option.some.injEq] at h
    subst h
    rfl
  | cons k rest ih =>
    intro n r h
    simp only [JsonValue.follow] at h
    cases hc : n.child k with
    | none => simp [hc] at h
    | some c =>
      simp only [hc] at h
      simp only [JsonValue.Get.loop, JsonValue.Get.step_boxed_of_child n c k hc]
      exact ih c r h

/-- A path splits: the node it leads to is reached through the node its prefix leads to. -/
theorem JsonValue.follow_append : ∀ (p q : List Key) (n : JsonValue),
    n.follow (p ++ q) = (match n.follow p with
      | some m => m.follow q
      | none => none) := by
  intro p
  induction p with
  | nil => intro q n; rfl
  | cons k rest ih =>
    intro q n
    simp only [List.cons_append, JsonValue.follow]
    cases hc : n.child k with
    | none => rfl
    | some c => exact ih q c

/-- `Get` along a non-empty path the receiver has. -/
theorem JsonValue.Get_of_follow (b r : JsonValue) (p : List Key) (hp : p ≠ [])
    (h : b.follow p = some r) : JsonValue.Get b p = .ok (.jsonValue r) := by
  cases p with
  | nil => exact absurd rfl hp
  | cons k rest =>
    simp only [JsonValue.follow] at h
    cases hc : b.child k with
    | none => simp [hc] at h
    | some c =>
      simp only [hc] at h
      have hne : ¬ (k :: rest).length = 0 := by simp
      simp only [JsonValue.Get, hne, if_false, JsonValue.Get.loop,
        JsonValue.Get.step_value_of_child b c k hc]
      exact JsonValue.Get.loop_boxed_of_follow rest c r h

/-! ## Dynamic value: the claims -/

/-- C8, the code at the failing input: on a map node with the single key `a`, `Get("b")`
returns the zero value `JsonValue\x7b\x7d` with a nil error; the missing key is not reported,
the map index expression being used without its presence flag. -/
theorem JsonValue.Get_missing_key_succeeds :
    List.lookup "b" [("a", JsonValue.mk (Iface.str "1"))] = none ∧
    JsonValue.Get (JsonValue.mk (Iface.map [("a", JsonValue.mk (Iface.str "1"))])) [Key.str "b"] =
      Except.ok (Iface.jsonValue (JsonValue.mk Iface.nil)) :=
  ⟨rfl, rfl⟩

/-- C9: `Get` returns an error for the empty path and whenever, at the value `v` it has
walked to along a prefix `p` of the path, the next segment is a string and `v` is no map,
is an integer and `v` is no list, is an integer that is negative or not below the length
of the list `v`, or is neither a string nor an integer (a value is a map or a list when it
is one or is a `JsonValue` holding one); the four messages of these errors are pairwise
distinct. -/
theorem JsonValue.Get_errors (b : JsonValue) :
    JsonValue.Get b [] = .error "no key specified" ∧
    (∀ (p q : List Key) (k : Key) (v : Iface), JsonValue.Get.loop b.value p = .ok v →
      ((∃ s, k = .str s ∧ v.isMap = false) →
        JsonValue.Get b (p ++ k :: q) = .error "JsonValue is not a map") ∧
      ((∃ i, k = .int i ∧ v.asList = none) →
        JsonValue.Get b (p ++ k :: q) = .error "JsonValue is not an array") ∧
      ((∃ i xs, k = .int i ∧ v.asList = some xs ∧ (i < 0 ∨ i ≥ (xs.length : Int))) →
        JsonValue.Get b (p ++ k :: q) = .error "index out of range") ∧
      ((∃ t, k = .other t) →
        JsonValue.Get b (p ++ k :: q) = .error "invalid key type")) ∧
    ("JsonValue is not a map" ≠ "JsonValue is not an array" ∧
      "JsonValue is not a map" ≠ "index out of range" ∧
      "JsonValue is not a map" ≠ "invalid key type" ∧
      "JsonValue is not an array" ≠ "index out of range" ∧
      "JsonValue is not an array" ≠ "invalid key type" ∧
      "index out of range" ≠ "invalid key type") := by
  refine ⟨rfl, ?_, by decide⟩
  intro p q k v hp
  refine ⟨?_, ?_, ?_, ?_⟩
  · rintro ⟨s, rfl, hv⟩
    exact JsonValue.Get_error_of_step b p q _ v _ hp (JsonValue.Get.step_str_not_map v s hv)
  · rintro ⟨i, rfl, hv⟩
    exact JsonValue.Get_error_of_step b p q _ v _ hp (JsonValue.Get.step_int_not_list v i hv)
  · rintro ⟨i, xs, rfl, hv, hi⟩
    exact JsonValue.Get_error_of_step b p q _ v _ hp
      (JsonValue.Get.step_int_out_of_range v i xs hv hi)
  · rintro ⟨t, rfl⟩
    exact JsonValue.Get_error_of_step b p q _ v _ hp rfl

/-- C10: along a non-empty path of string and integer segments, each a key of the map node
or an index of the list node reached so far, `Get` succeeds and returns the node the path
leads to; and for a further segment `s` that the node has, `Get` along the longer path is
the one-segment `Get` of `s` on that node. -/
theorem JsonValue.Get_follow (b r : JsonValue) (p : List Key) (hp : p ≠ [])
    (h : b.follow p = some r) :
    JsonValue.Get b p = .ok (.jsonValue r) ∧
    ∀ (s : Key) (c : JsonValue), r.child s = some c →
      JsonValue.Get b (p ++ [s]) = JsonValue.Get r [s] ∧
      JsonValue.Get r [s] = .ok (.jsonValue c) := by
  refine ⟨JsonValue.Get_of_follow b r p hp h, ?_⟩
  intro s c hc
  have hlong : b.follow (p ++ [s]) = some c := by
    rw [JsonValue.follow_append, h]
    simp [JsonValue.follow, hc]
  have hshort : r.follow [s] = some c := by
    simp [JsonValue.follow, hc]
  rw [JsonValue.Get_of_follow b c (p ++ [s]) (by simp) hlong,
    JsonValue.Get_of_follow r c [s] (by simp) hshort]
  exact ⟨rfl, rfl⟩

/-- C10 at a concrete value: the map with the key `a` bound to the list of the strings `x`
and `y`, the path `a`, and then the index 1. -/
theorem JsonValue.Get_follow_witness :
    ([Key.str "a"] ≠ []) ∧
    (JsonValue.mk (Iface.map [("a", JsonValue.mk (Iface.slice
        [JsonValue.mk (Iface.str "x"), JsonValue.mk (Iface.str "y")]))])).follow [Key.str "a"] =
      some (JsonValue.mk (Iface.slice
        [JsonValue.mk (Iface.str "x"), JsonValue.mk (Iface.str "y")])) ∧
    (JsonValue.mk (Iface.map [("a", JsonValue.mk (Iface.slice
        [JsonValue.mk (Iface.str "x"), JsonValue.mk (Iface.str "y")]))])).Get
        [Key.str "a", Key.int 1] =
      Except.ok (Iface.jsonValue (JsonValue.mk (Iface.str "y"))) :=
  ⟨by simp, rfl,
    ((JsonValue.Get_follow
      (JsonValue.mk (Iface.map [("a", JsonValue.mk (Iface.slice
        [JsonValue.mk (Iface.str "x"), JsonValue.mk (Iface.str "y")]))]))
      (JsonValue.mk (Iface.slice [JsonValue.mk (Iface.str "x"), JsonValue.mk (Iface.str "y")]))
      [Key.str "a"] (by simp) rfl).2 (Key.int 1) (JsonValue.mk (Iface.str "y")) rfl).1.trans
      rfl⟩

/-! ## Number parsing: lemmas -/

/-- A decimal digit has a value of at most nine. -/
theorem digit_value_le (c : Char) (h : '0' ≤ c ∧ c ≤ '9') : c.toNat - '0'.toNat ≤ 9 := by
  obtain ⟨_, h2⟩ := h
  rw [Char.le_def] at h2
  have h3 : c.toNat ≤ 57 := h2
  have hz : '0'.toNat = 48 := rfl
  rw [hz]
  omega

/-- Reading more digits does not make the number smaller. -/
theorem le_digitsValue : ∀ (cs : List Char) (n : Nat), n ≤ digitsValue n cs := by
  intro cs
  induction cs with
  | nil => intro n; exact le_refl n
  | cons c cs ih =>
    intro n
    have h := ih (n * 10 + (c.toNat - '0'.toNat))
    show n ≤ digitsValue (n * 10 + (c.toNat - '0'.toNat)) cs
    exact le_trans (by generalize c.toNat - '0'.toNat = d; omega) h

/-- The digit loop of `ParseUint`: it succeeds exactly on a run of decimal digits whose
number fits in 64 bits, and then returns that number; otherwise it returns `ErrRange` with
the largest `uint64`, or `ErrSyntax`. -/
theorem ParseUint.loop_digits : ∀ (cs : List Char) (n : Nat), n < 2 ^ 64 →
    (cs.all isDecimalDigit = true ∧ digitsValue n cs < 2 ^ 64 ∧
      ParseUint.loop n cs = (digitsValue n cs, none)) ∨
    (¬ (cs.all isDecimalDigit = true ∧ digitsValue n cs < 2 ^ 64) ∧
      (ParseUint.loop n cs = (2 ^ 64 - 1, some .range) ∨
        ParseUint.loop n cs = (0, some .invalid))) := by
  intro cs
  induction cs with
  | nil =>
    intro n hn
    left
    exact ⟨rfl, hn, rfl⟩
  | cons c cs ih =>
    intro n hn
    by_cases hd : '0' ≤ c ∧ c ≤ '9'
    · have hv := digit_value_le c hd
      have hge := le_digitsValue cs (n * 10 + (c.toNat - '0'.toNat))
      have hdig : isDecimalDigit c = true := by simp [isDecimalDigit, hd]
      have hih := ih (n * 10 + (c.toNat - '0'.toNat))
      have hloop : ParseUint.loop n (c :: cs) =
          if n ≥ (2 ^ 64 - 1) / 10 + 1 then (2 ^ 64 - 1, some .range)
          else if (n * 10 + (c.toNat - '0'.toNat)) % 2 ^ 64 < n * 10 ∨
              (n * 10 + (c.toNat - '0'.toNat)) % 2 ^ 64 > 2 ^ 64 - 1 then
            (2 ^ 64 - 1, some .range)
          else ParseUint.loop ((n * 10 + (c.toNat - '0'.toNat)) % 2 ^ 64) cs := by
        rw [ParseUint.loop, if_pos hd]
      have hval : digitsValue n (c :: cs) = digitsValue (n * 10 + (c.toNat - '0'.toNat)) cs := rfl
      have hall : (c :: cs).all isDecimalDigit = cs.all isDecimalDigit := by
        simp [List.all_cons, hdig]
      rw [hloop, hval, hall]
      generalize c.toNat - '0'.toNat = d at hv hge hih ⊢
      have hcut : (2 ^ 64 - 1) / 10 + 1 = 1844674407370955162 := by norm_num
      have hpow : (2 : Nat) ^ 64 = 18446744073709551616 := by norm_num
      rw [hcut, hpow] at *
      by_cases h1 : n ≥ 1844674407370955162
      · right
        rw [if_pos h1]
        exact ⟨fun h => by omega, Or.inl rfl⟩
      · rw [if_neg h1]
        by_cases h2 : n * 10 + d < 18446744073709551616
        · have hmod : (n * 10 + d) % 18446744073709551616 = n * 10 + d := Nat.mod_eq_of_lt h2
          rw [hmod]
          have hnw : ¬ (n * 10 + d < n * 10 ∨ n * 10 + d > 18446744073709551616 - 1) := by omega
          rw [if_neg hnw]
          exact hih h2
        · right
          have hw : (n * 10 + d) % 18446744073709551616 < n * 10 ∨
              (n * 10 + d) % 18446744073709551616 > 18446744073709551616 - 1 := by omega
          rw [if_pos hw]
          exact ⟨fun h => by omega, Or.inl rfl⟩
    · right
      have hdig : isDecimalDigit c = false := by simp [isDecimalDigit, hd]
      have hloop : ParseUint.loop n (c :: cs) = (0, some .invalid) := by
        rw [ParseUint.loop, if_neg hd]
      rw [hloop]
      refine ⟨?_, Or.inr rfl⟩
      rintro ⟨hall, _⟩
      simp [List.all_cons, hdig] at hall

/-- `ParseInt` after the sign: it succeeds exactly when the rest is a non-empty run of
decimal digits whose number is at most the largest magnitude of that sign. -/
theorem ParseInt.signed_ok_iff (neg : Bool) (cs : List Char) :
    (ParseInt.signed neg (ParseUint cs)).2 = none ↔
      (isDigits cs = true ∧ digitsValue 0 cs ≤ (if neg then 2 ^ 63 else 2 ^ 63 - 1)) := by
  have hpow : (2 : Nat) ^ 64 = 18446744073709551616 := by norm_num
  have hp63 : (2 : Nat) ^ 63 = 9223372036854775808 := by norm_num
  by_cases hnil : cs = []
  · subst hnil
    simp [ParseUint, ParseInt.signed, isDigits]
  · have hU : ParseUint cs = ParseUint.loop 0 cs := by simp [ParseUint, hnil]
    have hD : isDigits cs = cs.all isDecimalDigit := by simp [isDigits, hnil]
    rw [hU, hD]
    rcases ParseUint.loop_digits cs 0 (by norm_num) with ⟨hall, hlt, hloop⟩ | ⟨hnot, hloop | hloop⟩
    · rw [hloop, hall]
      rw [hpow] at hlt
      generalize digitsValue 0 cs = v at hlt ⊢
      rw [hp63]
      cases neg
      · by_cases hv : v ≥ 9223372036854775808
        · simp [ParseInt.signed, hv]
          omega
        · simp [ParseInt.signed, hv]
          omega
      · by_cases hv : v > 9223372036854775808
        · simp [ParseInt.signed, hv]
        · simp [ParseInt.signed, hv]
          omega
    · rw [hloop]
      have hfalse : ¬ (cs.all isDecimalDigit = true ∧
          digitsValue 0 cs ≤ (if neg then 2 ^ 63 else 2 ^ 63 - 1)) := by
        rintro ⟨h1, h2⟩
        apply hnot
        refine ⟨h1, ?_⟩
        rw [hpow]
        rw [hp63] at h2
        generalize digitsValue 0 cs = v at h2 ⊢
        cases neg
        · simp at h2; omega
        · simp at h2; omega
      have hbig : (2 : Nat) ^ 64 - 1 ≥ 2 ^ 63 ∧ (2 : Nat) ^ 64 - 1 > 2 ^ 63 := by norm_num
      constructor
      · intro h
        exfalso
        cases neg
        · simp [ParseInt.signed, hbig.1] at h
        · simp [ParseInt.signed, hbig.2] at h
      · intro h
        exact absurd h hfalse
    · rw [hloop]
      have hfalse : ¬ (cs.all isDecimalDigit = true ∧
          digitsValue 0 cs ≤ (if neg then 2 ^ 63 else 2 ^ 63 - 1)) := by
        rintro ⟨h1, h2⟩
        apply hnot
        refine ⟨h1, ?_⟩
        rw [hpow]
        rw [hp63] at h2
        generalize digitsValue 0 cs = v at h2 ⊢
        cases neg
        · simp at h2; omega
        · simp at h2; omega
      constructor
      · intro h
        simp [ParseInt.signed] at h
      · intro h
        exact absurd h hfalse

/-- `ParseInt(s, 10, 64)` returns no error exactly for an optional sign followed by one or
more decimal digits whose value is in the range of `int64`. -/
theorem ParseInt_ok_iff (s : String) : (ParseInt s).2 = none ↔ isInt64Literal s = true := by
  unfold ParseInt isInt64Literal
  cases hs : s.toList with
  | nil => simp
  | cons c cs =>
    simp only []
    by_cases hp : c = '+'
    · simp only [hp, if_true, ParseInt.signed_ok_iff false cs]
      simp
    · by_cases hm : c = '-'
      · have hne : ¬ ('-' = '+') := by decide
        simp only [hm, hne, if_true, if_false, ParseInt.signed_ok_iff true cs]
        simp
      · simp only [hp, hm, if_false, ParseInt.signed_ok_iff false (c :: cs)]
        simp
/-! ## Dynamic value, text form: lemmas -/

/-- A conditional between two non-empty lists is non-empty. -/
theorem ite_length_pos {α : Type} (c : Prop) [Decidable c] (a b : List α)
    (ha : 1 ≤ a.length) (hb : 1 ≤ b.length) : 1 ≤ (if c then a else b).length := by
  split <;> assumption

/-- Every character is written as at least one character by `Quote`. -/
theorem appendEscapedRune_length_pos (wide : Nat → Bool) (r : Char) :
    1 ≤ (appendEscapedRune wide r).length := by
  unfold appendEscapedRune
  repeat' apply ite_length_pos
  all_goals exact Nat.le_add_left 1 _

/-- The text between the quotes of `Quote` is at least as long as the text quoted. -/
theorem Quote.body_length_ge (wide : Nat → Bool) :
    ∀ cs : List Char, cs.length ≤ (Quote.body wide cs).length := by
  intro cs
  induction cs with
  | nil => exact Nat.zero_le _
  | cons r rest ih =>
    have := appendEscapedRune_length_pos wide r
    simp only [Quote.body, List.length_cons, List.length_append]
    omega

/-- `Quote` never returns its argument: the result is longer by two characters at least. -/
theorem Quote_ne_self (wide : Nat → Bool) (s : String) : Quote wide s ≠ s := by
  intro h
  have hlen : (Quote wide s).length = s.length := by rw [h]
  have := Quote.body_length_ge wide s.toList
  simp only [Quote, String.length, List.length_cons, List.length_append, List.length_nil,
    String.toList] at hlen this
  omega
/-- What `MarshalJSON` returns for a string node. -/
theorem JsonValue.MarshalJSON_str (L : StdLib) (s : String) :
    JsonValue.MarshalJSON L (JsonValue.mk (Iface.str s)) =
      .ok (if isInt64Literal s = true then s else Quote L.isPrintWide s) := by
  by_cases h : isInt64Literal s = true
  · have hp := (ParseInt_ok_iff s).2 h
    simp [JsonValue.MarshalJSON, JsonValue.value, hp, h]
  · have hp : ¬ (ParseInt s).2 = none := fun hp => h ((ParseInt_ok_iff s).1 hp)
    simp [JsonValue.MarshalJSON, JsonValue.value, hp, h]

/-! ## Dynamic value, text form: the claims -/

/-- C11, counterexample: the text `9223372036854775808` is an optional sign followed by
decimal digits, yet `MarshalJSON` of the string node that holds it returns the quoted
text, not the text itself: `ParseInt(v, 10, 64)` reports a value out of range. -/
theorem JsonValue.MarshalJSON_big_integer_quoted :
    isDecimalLiteral "9223372036854775808" = true ∧
    JsonValue.MarshalJSON exampleStdLib (JsonValue.mk (Iface.str "9223372036854775808")) =
      .ok "\"9223372036854775808\"" ∧
    "\"9223372036854775808\"" ≠ "9223372036854775808" := by
  refine ⟨by decide, rfl, by decide⟩

/-- C11, amended: `MarshalJSON` of a string node with content `s` succeeds; when `s` is an
optional sign followed by one or more decimal digits whose value is in the range of a
signed 64-bit integer the output is `s` itself, unquoted; otherwise the output is
`strconv.Quote(s)`, the quoted and escaped literal. -/
theorem JsonValue.MarshalJSON_string (L : StdLib) (s : String) :
    (isInt64Literal s = true →
      JsonValue.MarshalJSON L (JsonValue.mk (Iface.str s)) = .ok s) ∧
    (isInt64Literal s = false →
      JsonValue.MarshalJSON L (JsonValue.mk (Iface.str s)) = .ok (Quote L.isPrintWide s)) := by
  constructor
  · intro h
    rw [JsonValue.MarshalJSON_str, if_pos h]
  · intro h
    rw [JsonValue.MarshalJSON_str, if_neg (by simp [h])]

/-- What `UnmarshalJSON` does with a text that starts with neither a brace nor a bracket. -/
theorem JsonValue.UnmarshalJSON_scalar (L : StdLib) (b : JsonValue) (data : String) (c : Char)
    (rest : List Char) (h : data.toList = c :: rest) (h1 : c ≠ Char.ofNat 123)
    (h2 : c ≠ Char.ofNat 91) :
    JsonValue.UnmarshalJSON L b data = .ret (JsonValue.mk (Iface.str data), none) := by
  simp only [JsonValue.UnmarshalJSON, h, h1, h2, if_false]

/-- A text `ParseInt` accepts starts with a sign or a decimal digit. -/
theorem isInt64Literal_head (s : String) (h : isInt64Literal s = true) :
    ∃ c rest, s.toList = c :: rest ∧ (c = '+' ∨ c = '-' ∨ isDecimalDigit c = true) := by
  cases hs : s.toList with
  | nil =>
    unfold isInt64Literal at h
    rw [hs] at h
    exact absurd h (by decide)
  | cons c cs =>
    refine ⟨c, cs, rfl, ?_⟩
    by_cases hp : c = '+'
    · exact Or.inl hp
    · by_cases hm : c = '-'
      · exact Or.inr (Or.inl hm)
      · right; right
        unfold isInt64Literal at h
        rw [hs] at h
        simp only [hp, hm, if_false, isDigits, List.all_cons, Bool.and_eq_true] at h
        exact h.1.2.1

/-- A sign or decimal digit is neither the opening brace nor the opening bracket nor the
double quote. -/
theorem sign_or_digit_ne (c : Char) (h : c = '+' ∨ c = '-' ∨ isDecimalDigit c = true) :
    c ≠ Char.ofNat 123 ∧ c ≠ Char.ofNat 91 ∧ c ≠ Char.ofNat 34 := by
  rcases h with h | h | h
  · subst h; decide
  · subst h; decide
  · refine ⟨?_, ?_, ?_⟩ <;> intro hc <;> subst hc <;> revert h <;> decide

/-- A text that starts with a double quote is no integer for `ParseInt`. -/
theorem isInt64Literal_of_quote (s : String) (h : s.toList.head? = some (Char.ofNat 34)) :
    isInt64Literal s = false := by
  cases hlit : isInt64Literal s with
  | false => rfl
  | true =>
    obtain ⟨c, rest, hs, hc⟩ := isInt64Literal_head s hlit
    rw [hs] at h
    simp only [List.head?_cons, Option.some.injEq] at h
    exact absurd h (sign_or_digit_ne c hc).2.2

/-- C12: for a non-empty input, `UnmarshalJSON` looks at the first character only: an
opening brace gives a map node or an error, an opening bracket a list node or an error,
and any other first character makes the call succeed with a string node whose content is
the input as it is. -/
theorem JsonValue.UnmarshalJSON_dispatch (L : StdLib) (b : JsonValue) (data : String)
    (c : Char) (rest : List Char) (h : data.toList = c :: rest) :
    (c = Char.ofNat 123 →
      (∃ m, JsonValue.UnmarshalJSON L b data = .ret (JsonValue.mk (Iface.map m), none)) ∨
      (∃ err, JsonValue.UnmarshalJSON L b data = .ret (b, some err))) ∧
    (c = Char.ofNat 91 →
      (∃ m, JsonValue.UnmarshalJSON L b data = .ret (JsonValue.mk (Iface.slice m), none)) ∨
      (∃ err, JsonValue.UnmarshalJSON L b data = .ret (b, some err))) ∧
    (c ≠ Char.ofNat 123 → c ≠ Char.ofNat 91 →
      JsonValue.UnmarshalJSON L b data = .ret (JsonValue.mk (Iface.str data), none)) := by
  refine ⟨?_, ?_, ?_⟩
  · intro hc
    simp only [JsonValue.UnmarshalJSON, h, hc, if_true]
    cases L.jsonUnmarshalMap data with
    | error err => exact Or.inr ⟨err, rfl⟩
    | ok m => exact Or.inl ⟨m, rfl⟩
  · intro hc
    have hne : ¬ (Char.ofNat 91 = Char.ofNat 123) := by decide
    simp only [JsonValue.UnmarshalJSON, h, hc, hne, if_true, if_false]
    cases L.jsonUnmarshalSlice data with
    | error err => exact Or.inr ⟨err, rfl⟩
    | ok m => exact Or.inl ⟨m, rfl⟩
  · intro h1 h2
    simp only [JsonValue.UnmarshalJSON, h, h1, h2, if_false]

/-- C12 at a concrete input: the text `123` becomes the string node `123`. -/
theorem JsonValue.UnmarshalJSON_dispatch_witness :
    "123".toList = '1' :: ['2', '3'] ∧
    JsonValue.UnmarshalJSON exampleStdLib (JsonValue.mk Iface.nil) "123" =
      .ret (JsonValue.mk (Iface.str "123"), none) :=
  ⟨rfl, (JsonValue.UnmarshalJSON_dispatch exampleStdLib (JsonValue.mk Iface.nil) "123" '1'
    ['2', '3'] rfl).2.2 (by decide) (by decide)⟩

/-- C13: `SetValue` stores a string, a list or a map and returns no error, so that
`NewJsonValue(v).GetValue()` is `v`; for a value of any other kind `SetValue` and
`NewJsonValue` do not return but panic; hence every node they return holds a string, a
list or a map. -/
theorem JsonValue.SetValue_kinds (b : JsonValue) (v : Iface) :
    (v.isNodeKind = true →
      JsonValue.SetValue b v = .ret (JsonValue.mk v, none) ∧
      NewJsonValue v = .ret (JsonValue.mk v) ∧
      (JsonValue.mk v).GetValue = v) ∧
    (v.isNodeKind = false →
      JsonValue.SetValue b v = .panic "value must be a string, slice, or map" ∧
      NewJsonValue v = .panic "value must be a string, slice, or map") ∧
    (∀ b' err, JsonValue.SetValue b v = .ret (b', err) →
      b'.value.isNodeKind = true ∧ err = none) ∧
    (∀ r, NewJsonValue v = .ret r → r.value.isNodeKind = true) := by
  cases v with
  | str s =>
    refine ⟨fun _ => ⟨rfl, rfl, rfl⟩, fun h => by simp [Iface.isNodeKind] at h, ?_, ?_⟩
    · intro b' err h
      simp only [JsonValue.SetValue, Outcome.ret.injEq, Prod.mk.injEq] at h
      obtain ⟨h1, h2⟩ := h
      subst h1 h2
      exact ⟨rfl, rfl⟩
    · intro r h
      simp only [NewJsonValue, JsonValue.SetValue, Outcome.ret.injEq] at h
      subst h
      rfl
  | slice xs =>
    refine ⟨fun _ => ⟨rfl, rfl, rfl⟩, fun h => by simp [Iface.isNodeKind] at h, ?_, ?_⟩
    · intro b' err h
      simp only [JsonValue.SetValue, Outcome.ret.injEq, Prod.mk.injEq] at h
      obtain ⟨h1, h2⟩ := h
      subst h1 h2
      exact ⟨rfl, rfl⟩
    · intro r h
      simp only [NewJsonValue, JsonValue.SetValue, Outcome.ret.injEq] at h
      subst h
      rfl
  | map m =>
    refine ⟨fun _ => ⟨rfl, rfl, rfl⟩, fun h => by simp [Iface.isNodeKind] at h, ?_, ?_⟩
    · intro b' err h
      simp only [JsonValue.SetValue, Outcome.ret.injEq, Prod.mk.injEq] at h
      obtain ⟨h1, h2⟩ := h
      subst h1 h2
      exact ⟨rfl, rfl⟩
    · intro r h
      simp only [NewJsonValue, JsonValue.SetValue, Outcome.ret.injEq] at h
      subst h
      rfl
  | nil =>
    exact ⟨fun h => by simp [Iface.isNodeKind] at h, fun _ => ⟨rfl, rfl⟩,
      fun b' err h => by simp [JsonValue.SetValue] at h,
      fun r h => by simp [NewJsonValue, JsonValue.SetValue] at h⟩
  | jsonValue w =>
    exact ⟨fun h => by simp [Iface.isNodeKind] at h, fun _ => ⟨rfl, rfl⟩,
      fun b' err h => by simp [JsonValue.SetValue] at h,
      fun r h => by simp [NewJsonValue, JsonValue.SetValue] at h⟩
  | other t =>
    exact ⟨fun h => by simp [Iface.isNodeKind] at h, fun _ => ⟨rfl, rfl⟩,
      fun b' err h => by simp [JsonValue.SetValue] at h,
      fun r h => by simp [NewJsonValue, JsonValue.SetValue] at h⟩

/-- C20, counterexample: the string token `"abc"` is kept with its quotes by
`UnmarshalJSON` and rendered by `MarshalJSON` as `"\"abc\""`, quoted a second time; and
the integer token `9223372036854775808` comes back quoted. -/
theorem JsonValue.scalar_roundtrip_changes_token :
    JsonValue.UnmarshalJSON exampleStdLib (JsonValue.mk Iface.nil) "\"abc\"" =
      .ret (JsonValue.mk (Iface.str "\"abc\""), none) ∧
    JsonValue.MarshalJSON exampleStdLib (JsonValue.mk (Iface.str "\"abc\"")) =
      .ok "\"\\\"abc\\\"\"" ∧
    "\"\\\"abc\\\"\"" ≠ "\"abc\"" ∧
    JsonValue.UnmarshalJSON exampleStdLib (JsonValue.mk Iface.nil) "9223372036854775808" =
      .ret (JsonValue.mk (Iface.str "9223372036854775808"), none) ∧
    JsonValue.MarshalJSON exampleStdLib (JsonValue.mk (Iface.str "9223372036854775808")) =
      .ok "\"9223372036854775808\"" ∧
    "\"9223372036854775808\"" ≠ "9223372036854775808" :=
  ⟨rfl, rfl, by decide, rfl, rfl, by decide⟩

/-- C20, amended: an integer token whose value is in the range of a signed 64-bit integer
is rendered back by `MarshalJSON` after `UnmarshalJSON` as exactly that token; a token
that starts with a double quote is kept with its quotes and rendered as
`strconv.Quote` of the whole token, which is never the token itself. -/
theorem JsonValue.scalar_roundtrip (L : StdLib) (b : JsonValue) (d : String) :
    (isInt64Literal d = true →
      JsonValue.UnmarshalJSON L b d = .ret (JsonValue.mk (Iface.str d), none) ∧
      JsonValue.MarshalJSON L (JsonValue.mk (Iface.str d)) = .ok d) ∧
    (d.toList.head? = some (Char.ofNat 34) →
      JsonValue.UnmarshalJSON L b d = .ret (JsonValue.mk (Iface.str d), none) ∧
      JsonValue.MarshalJSON L (JsonValue.mk (Iface.str d)) = .ok (Quote L.isPrintWide d) ∧
      Quote L.isPrintWide d ≠ d) := by
  constructor
  · intro h
    obtain ⟨c, rest, hs, hc⟩ := isInt64Literal_head d h
    have hne := sign_or_digit_ne c hc
    refine ⟨JsonValue.UnmarshalJSON_scalar L b d c rest hs hne.1 hne.2.1, ?_⟩
    rw [JsonValue.MarshalJSON_str, if_pos h]
  · intro h
    have hlit := isInt64Literal_of_quote d h
    cases hs : d.toList with
    | nil =>
      rw [hs] at h
      exact absurd h (by simp)
    | cons c rest =>
      rw [hs] at h
      simp only [List.head?_cons, Option.some.injEq] at h
      subst h
      refine ⟨JsonValue.UnmarshalJSON_scalar L b d _ rest hs (by decide) (by decide), ?_,
        Quote_ne_self _ d⟩
      rw [JsonValue.MarshalJSON_str, if_neg (by simp [hlit])]

/-! ## Fixed-size primitive types: lemmas -/

/-- Reading back the eight little-endian bytes of a `uint64` gives the number. -/
theorem LittleEndian.Uint64_PutUint64 (b : Bytes) (v : Nat) (hv : v < 2 ^ 64) :
    LittleEndian.Uint64 (LittleEndian.PutUint64 b v) = v := by
  simp only [LittleEndian.Uint64, LittleEndian.PutUint64, List.cons_append, List.getD_cons_zero,
    List.getD_cons_succ]
  norm_num only at hv ⊢
  omega

/-- Reading back the four little-endian bytes of a `uint32` gives the number. -/
theorem LittleEndian.Uint32_PutUint32 (b : Bytes) (v : Nat) (hv : v < 2 ^ 32) :
    LittleEndian.Uint32 (LittleEndian.PutUint32 b v) = v := by
  simp only [LittleEndian.Uint32, LittleEndian.PutUint32, List.cons_append, List.getD_cons_zero,
    List.getD_cons_succ]
  norm_num only at hv ⊢
  omega

/-- Copying an array of zeros over an array of the same length gives the zeros. -/
theorem copy_zero (n : Bytes) (k : Nat) (h : n.length = k) :
    copy n (List.replicate k 0) = List.replicate k 0 := by
  simp [copy, h]

/-- The sixteen bytes after `Uint128.SetUint64`. -/
theorem Uint128.SetUint64_bytes16 (n : Uint128) (v : Nat) (h : n.length = 16) :
    Uint128.SetUint64 n v =
      [v % 256, v / 2 ^ 8 % 256, v / 2 ^ 16 % 256, v / 2 ^ 24 % 256,
        v / 2 ^ 32 % 256, v / 2 ^ 40 % 256, v / 2 ^ 48 % 256, v / 2 ^ 56 % 256] ++
        List.replicate 8 0 := by
  simp only [Uint128.SetUint64, copy_zero n 16 h, LittleEndian.PutUint64]
  rfl

/-- The thirty-two bytes after `Uint256.SetUint64`. -/
theorem Uint256.SetUint64_bytes32 (n : Uint256) (v : Nat) (h : n.length = 32) :
    Uint256.SetUint64 n v =
      [v % 256, v / 2 ^ 8 % 256, v / 2 ^ 16 % 256, v / 2 ^ 24 % 256,
        v / 2 ^ 32 % 256, v / 2 ^ 40 % 256, v / 2 ^ 48 % 256, v / 2 ^ 56 % 256] ++
        List.replicate 24 0 := by
  simp only [Uint256.SetUint64, copy_zero n 32 h, LittleEndian.PutUint64]
  rfl

/-- The decoder of the specification reads a full array from data of the same length. -/
theorem specCodec_Read_exact (x n : Bytes) (h : n.length = x.length) :
    specCodec.Read x n = (x, none) := by
  simp [specCodec, h]

/-- The decoder of the specification fails on data shorter than the array to fill. -/
theorem specCodec_Read_short (data n : Bytes) (h : data.length < n.length) :
    specCodec.Read data n = (n, some "read past end of data") := by
  simp [specCodec, h]

/-- With the decoder of the specification, the four byte-array types report an error for
a buffer shorter than their size and consume nothing. -/
theorem blob_Unpack_short (n16 n32 data : Bytes) (h16 : n16.length = 16)
    (h32 : n32.length = 32) :
    (data.length < 16 →
      Int128.Unpack specCodec n16 data = (n16, 0, some "read past end of data") ∧
      Uint128.Unpack specCodec n16 data = (n16, 0, some "read past end of data") ∧
      Float128.Unpack specCodec n16 data = (n16, 0, some "read past end of data")) ∧
    (data.length < 32 →
      Uint256.Unpack specCodec n32 data = (n32, 0, some "read past end of data")) := by
  constructor
  · intro h
    have hr := specCodec_Read_short data n16 (by omega)
    simp only [Int128.Unpack, Uint128.Unpack, Float128.Unpack, hr, and_self]
  · intro h
    have hr := specCodec_Read_short data n32 (by omega)
    simp only [Uint256.Unpack, hr]

/-! ## Fixed-size primitive types: the claims -/

/-- C14, the code on the text it produces: `UnmarshalJSON` passes its input to
`time.Parse` as the layout and the constant `2006-01-02T15:04:05` as the value to parse.
The text `MarshalJSON` produces starts with a double quote, which as the first character
of a layout is literal text that the value must start with; the constant does not, so
(for every `time.Parse` that rejects such a value) `UnmarshalJSON` of the text of any
`TimePointSec` returns an error and leaves the receiver as it was. -/
theorem TimePointSec.text_roundtrip_fails (L : TimeLib)
    (hparse : ∀ layout value : String, layout.toList.head? = some (Char.ofNat 34) →
      value.toList.head? ≠ some (Char.ofNat 34) → ∃ err, L.parseUnix layout value = .error err)
    (t a : TimePointSec) :
    ∃ text err, TimePointSec.MarshalJSON L t = .ok text ∧
      TimePointSec.UnmarshalJSON L a text = (a, some err) := by
  obtain ⟨err, herr⟩ := hparse (jsonMarshalString L (L.format (t.UTCSeconds : Int)))
    "2006-01-02T15:04:05" rfl (by decide)
  refine ⟨jsonMarshalString L (L.format (t.UTCSeconds : Int)), err, rfl, ?_⟩
  simp only [TimePointSec.UnmarshalJSON, herr]

/-- C14 at a concrete input: the second count 0, unmarshalled into a receiver that holds 7. -/
theorem TimePointSec.text_roundtrip_fails_witness :
    (∀ layout value : String, layout.toList.head? = some (Char.ofNat 34) →
      value.toList.head? ≠ some (Char.ofNat 34) →
      ∃ err, exampleTimeLib.parseUnix layout value = .error err) ∧
    ∃ text err, TimePointSec.MarshalJSON exampleTimeLib ⟨0⟩ = .ok text ∧
      TimePointSec.UnmarshalJSON exampleTimeLib ⟨7⟩ text = (⟨7⟩, some err) :=
  have h : ∀ layout value : String, layout.toList.head? = some (Char.ofNat 34) →
      value.toList.head? ≠ some (Char.ofNat 34) →
      ∃ err, exampleTimeLib.parseUnix layout value = .error err := by
    intro layout value hl hv
    refine ⟨"cannot parse", ?_⟩
    have hne : ¬ layout.toList.head? = value.toList.head? := by
      rw [hl]
      exact fun h => hv h.symm
    simp only [exampleTimeLib, hne, if_false]
  ⟨h, TimePointSec.text_roundtrip_fails exampleTimeLib h ⟨0⟩ ⟨7⟩⟩

/-- C15, the code at the failing input: whatever the decoder does with the buffer, the
empty one included, `Unpack` of `TimePoint`, `TimePointSec` and `BlockTimestampType`
returns its size and a nil error: the result of `dec.Unpack` is dropped. -/
theorem time_Unpack_reports_size (C : Codec) (tp : TimePoint) (ts : TimePointSec)
    (bt : BlockTimestampType) (data : Bytes) :
    (TimePoint.Unpack C tp data).2 = (TimePoint.Size, none) ∧
    (TimePointSec.Unpack C ts data).2 = (TimePointSec.Size, none) ∧
    (BlockTimestampType.Unpack C bt data).2 = (BlockTimestampType.Size, none) ∧
    (TimePoint.Unpack specCodec tp []) = (tp, 8, none) :=
  ⟨rfl, rfl, rfl, rfl⟩

/-- C16: with the encoder and decoder of the specification, `Pack` of each fixed-width
type has `Size()` bytes (16, 16, 32, 16, 8, 4, 4) and `Unpack` of the packed bytes, into a
receiver with any prior content, succeeds, reports `Size()` bytes and restores the
value. -/
theorem fixed_size_roundtrip (x16 y16 x32 y32 : Bytes) (e e0 s s0 k k0 : Nat)
    (hx16 : x16.length = 16) (hy16 : y16.length = 16) (hx32 : x32.length = 32)
    (hy32 : y32.length = 32) (he : e < 2 ^ 64) (hs : s < 2 ^ 32) (hk : k < 2 ^ 32) :
    (((Int128.Pack x16).length : Int) = Int128.Size ∧ Int128.Size = 16 ∧
      Int128.Unpack specCodec y16 (Int128.Pack x16) = (x16, Int128.Size, none)) ∧
    (((Uint128.Pack x16).length : Int) = Uint128.Size ∧ Uint128.Size = 16 ∧
      Uint128.Unpack specCodec y16 (Uint128.Pack x16) = (x16, Uint128.Size, none)) ∧
    (((Uint256.Pack x32).length : Int) = Uint256.Size ∧ Uint256.Size = 32 ∧
      Uint256.Unpack specCodec y32 (Uint256.Pack x32) = (x32, Uint256.Size, none)) ∧
    (((Float128.Pack x16).length : Int) = Float128.Size ∧ Float128.Size = 16 ∧
      Float128.Unpack specCodec y16 (Float128.Pack x16) = (x16, Float128.Size, none)) ∧
    (((TimePoint.Pack specCodec ⟨e⟩).length : Int) = TimePoint.Size ∧ TimePoint.Size = 8 ∧
      TimePoint.Unpack specCodec ⟨e0⟩ (TimePoint.Pack specCodec ⟨e⟩) =
        (⟨e⟩, TimePoint.Size, none)) ∧
    (((TimePointSec.Pack specCodec ⟨s⟩).length : Int) = TimePointSec.Size ∧
      TimePointSec.Size = 4 ∧
      TimePointSec.Unpack specCodec ⟨s0⟩ (TimePointSec.Pack specCodec ⟨s⟩) =
        (⟨s⟩, TimePointSec.Size, none)) ∧
    (((BlockTimestampType.Pack specCodec ⟨k⟩).length : Int) = BlockTimestampType.Size ∧
      BlockTimestampType.Size = 4 ∧
      BlockTimestampType.Unpack specCodec ⟨k0⟩ (BlockTimestampType.Pack specCodec ⟨k⟩) =
        (⟨k⟩, BlockTimestampType.Size, none)) := by
  have hr16 := specCodec_Read_exact x16 y16 (by omega)
  have hr32 := specCodec_Read_exact x32 y32 (by omega)
  have h64 := LittleEndian.Uint64_PutUint64 (List.replicate 8 0) e he
  have h32 := LittleEndian.Uint32_PutUint32 (List.replicate 4 0) s hs
  have h32k := LittleEndian.Uint32_PutUint32 (List.replicate 4 0) k hk
  refine ⟨⟨?_, rfl, ?_⟩, ⟨?_, rfl, ?_⟩, ⟨?_, rfl, ?_⟩, ⟨?_, rfl, ?_⟩, ⟨rfl, rfl, ?_⟩,
    ⟨rfl, rfl, ?_⟩, ⟨rfl, rfl, ?_⟩⟩
  · simp [Int128.Pack, Int128.Size, hx16]
  · simp only [Int128.Unpack, Int128.Pack, hr16, Int128.Size]
  · simp [Uint128.Pack, Uint128.Size, hx16]
  · simp only [Uint128.Unpack, Uint128.Pack, hr16, Uint128.Size]
  · simp [Uint256.Pack, Uint256.Size, hx32]
  · simp only [Uint256.Unpack, Uint256.Pack, hr32, Uint256.Size]
  · simp [Float128.Pack, Float128.Size, hx16]
  · simp only [Float128.Unpack, Float128.Pack, hr16, Float128.Size]
  · have hlen : ¬ (LittleEndian.PutUint64 (List.replicate 8 0) e).length < 8 := by
      simp [LittleEndian.PutUint64]
    simp only [TimePoint.Unpack, TimePoint.Pack, specCodec, hlen, if_false, h64, TimePoint.Size]
  · have hlen : ¬ (LittleEndian.PutUint32 (List.replicate 4 0) s).length < 4 := by
      simp [LittleEndian.PutUint32]
    simp only [TimePointSec.Unpack, TimePointSec.Pack, specCodec, hlen, if_false, h32,
      TimePointSec.Size]
  · have hlen : ¬ (LittleEndian.PutUint32 (List.replicate 4 0) k).length < 4 := by
      simp [LittleEndian.PutUint32]
    simp only [BlockTimestampType.Unpack, BlockTimestampType.Pack, specCodec, hlen, if_false,
      h32k, BlockTimestampType.Size]

/-- C16 at concrete values: the arrays of sixteen and thirty-two bytes 7 unpacked over
arrays of zeros, and the counters 258, 259 and 260 unpacked over 0. -/
theorem fixed_size_roundtrip_witness :
    Uint256.Unpack specCodec (List.replicate 32 0) (Uint256.Pack (List.replicate 32 7)) =
      (List.replicate 32 7, 32, none) ∧
    TimePoint.Unpack specCodec ⟨0⟩ (TimePoint.Pack specCodec ⟨258⟩) = (⟨258⟩, 8, none) :=
  ⟨(fixed_size_roundtrip (List.replicate 16 7) (List.replicate 16 0) (List.replicate 32 7)
      (List.replicate 32 0) 258 0 259 0 260 0 (by decide) (by decide) (by decide) (by decide)
      (by decide) (by decide) (by decide)).2.2.1.2.2,
    (fixed_size_roundtrip (List.replicate 16 7) (List.replicate 16 0) (List.replicate 32 7)
      (List.replicate 32 0) 258 0 259 0 260 0 (by decide) (by decide) (by decide) (by decide)
      (by decide) (by decide) (by decide)).2.2.2.2.1.2.2⟩

/-- C17: after `SetUint64(v)` on a `Uint128` or `Uint256` with any prior content, bytes 0
to 7 are the little-endian encoding of `v`, every further byte is zero, and `Uint64()`
returns `v`. -/
theorem SetUint64_spec (n16 n32 : Bytes) (v : Nat) (h16 : n16.length = 16)
    (h32 : n32.length = 32) (hv : v < 2 ^ 64) :
    ((∀ i, i < 8 → (Uint128.SetUint64 n16 v)[i]? = some (v / 256 ^ i % 256)) ∧
      (∀ i, 8 ≤ i → i < 16 → (Uint128.SetUint64 n16 v)[i]? = some 0) ∧
      (Uint128.SetUint64 n16 v).length = 16 ∧
      Uint128.Uint64 (Uint128.SetUint64 n16 v) = v) ∧
    ((∀ i, i < 8 → (Uint256.SetUint64 n32 v)[i]? = some (v / 256 ^ i % 256)) ∧
      (∀ i, 8 ≤ i → i < 32 → (Uint256.SetUint64 n32 v)[i]? = some 0) ∧
      (Uint256.SetUint64 n32 v).length = 32 ∧
      Uint256.Uint64 (Uint256.SetUint64 n32 v) = v) := by
  refine ⟨⟨?_, ?_, ?_, ?_⟩, ⟨?_, ?_, ?_, ?_⟩⟩
  · intro i hi
    rw [Uint128.SetUint64_bytes16 n16 v h16]
    interval_cases i <;> simp
  · intro i h8 hi
    rw [Uint128.SetUint64_bytes16 n16 v h16]
    interval_cases i <;> rfl
  · rw [Uint128.SetUint64_bytes16 n16 v h16]
    rfl
  · exact LittleEndian.Uint64_PutUint64 _ v hv
  · intro i hi
    rw [Uint256.SetUint64_bytes32 n32 v h32]
    interval_cases i <;> simp
  · intro i h8 hi
    rw [Uint256.SetUint64_bytes32 n32 v h32]
    interval_cases i <;> rfl
  · rw [Uint256.SetUint64_bytes32 n32 v h32]
    rfl
  · exact LittleEndian.Uint64_PutUint64 _ v hv

/-- C17 at concrete values: arrays filled with 255 and the number 258. -/
theorem SetUint64_spec_witness :
    Uint128.SetUint64 (List.replicate 16 255) 258 =
      [2, 1, 0, 0, 0, 0, 0, 0, 0, 0, 0, 0, 0, 0, 0, 0] ∧
    Uint128.Uint64 (Uint128.SetUint64 (List.replicate 16 255) 258) = 258 ∧
    Uint256.Uint64 (Uint256.SetUint64 (List.replicate 32 255) 258) = 258 :=
  ⟨by decide,
    (SetUint64_spec (List.replicate 16 255) (List.replicate 32 255) 258 (by decide) (by decide)
      (by decide)).1.2.2.2,
    (SetUint64_spec (List.replicate 16 255) (List.replicate 32 255) 258 (by decide) (by decide)
      (by decide)).2.2.2.2⟩

/-! ## Exported operations, action data and dropped errors: lemmas -/

/-- The digits `hexDigit` knows are the hexadecimal digits. -/
theorem hexDigit_isSome (c : Char) : (hexDigit c).isSome = isHexDigit c := by
  unfold hexDigit isHexDigit
  by_cases h1 : '0' ≤ c ∧ c ≤ '9'
  · simp [h1]
  · by_cases h2 : 'a' ≤ c ∧ c ≤ 'f'
    · simp [h1, h2]
    · by_cases h3 : 'A' ≤ c ∧ c ≤ 'F'
      · simp [h1, h2, h3]
      · simp [h1, h2, h3]

/-- The loop of `hex.Decode` succeeds exactly on an even number of hexadecimal digits. -/
theorem hexDecode_ok_iff : ∀ cs : List Char,
    (∃ bytes, hexDecode cs = .ok bytes) ↔
      (cs.length % 2 = 0 ∧ cs.all isHexDigit = true)
  | [] => by simp [hexDecode]
  | [p] => by
    cases h : hexDigit p <;> simp [hexDecode, h]
  | p :: q :: rest => by
    have ih := hexDecode_ok_iff rest
    have hp := hexDigit_isSome p
    have hq := hexDigit_isSome q
    cases hdp : hexDigit p with
    | none =>
      rw [hdp] at hp
      simp [hexDecode, hdp, ← hp]
    | some a =>
      cases hdq : hexDigit q with
      | none =>
        rw [hdq] at hq
        simp [hexDecode, hdp, hdq, ← hq]
      | some b =>
        rw [hdp] at hp
        rw [hdq] at hq
        have hlen : (p :: q :: rest).length % 2 = rest.length % 2 := by
          simp only [List.length_cons]
          omega
        rw [hlen, List.all_cons, List.all_cons, ← hp, ← hq]
        simp only [Option.isSome_some, Bool.true_and]
        rw [← ih]
        cases hr : hexDecode rest with
        | error e => simp [hexDecode, hdp, hdq, hr]
        | ok bytes => simp [hexDecode, hdp, hdq, hr]

/-- `hex.DecodeString` succeeds exactly on a well-formed hex string. -/
theorem hexDecodeString_ok_iff (s : String) :
    (∃ bytes, hexDecodeString s = .ok bytes) ↔ isHexText s = true := by
  rw [hexDecodeString, hexDecode_ok_iff]
  simp [isHexText]

/-! ## Exported operations, action data and dropped errors: the claims -/

/-- C18: on a live handle, `transaction_add_action_` takes a well-formed hex string (an
even number of hexadecimal digits, the empty string included) as the data: the action is
built with the decoded bytes and `PackActionArgs` is not consulted; any other string goes
to `PackActionArgs(account, name, d)`, whose bytes become the data, and whose failure is
returned as an error with no action added. -/
theorem transaction_add_action_data {H Action : Type} (X : Extern H Action) (w : World H)
    (idx : Int) (account name d permissions : String)
    (hlive : validateIndex w.gPackedTxs idx = none) :
    (isHexText d = true ↔ ∃ bytes, hexDecodeString d = .ok bytes) ∧
    (∀ bytes, hexDecodeString d = .ok bytes →
      transaction_add_action_ X w idx account name d permissions =
        addActionWithData X w idx account name permissions bytes w.ext ∧
      ∀ f, transaction_add_action_ { X with PackActionArgs := f } w idx account name d
          permissions =
        transaction_add_action_ X w idx account name d permissions) ∧
    (∀ e, hexDecodeString d = .error e →
      (∀ h bytes, X.PackActionArgs account name d w.ext = (h, .ok bytes) →
        transaction_add_action_ X w idx account name d permissions =
          addActionWithData X w idx account name permissions bytes h) ∧
      (∀ h err, X.PackActionArgs account name d w.ext = (h, .error err) →
        transaction_add_action_ X w idx account name d permissions =
          (⟨w.gPackedTxs, h⟩, renderError err) ∧
        ∀ g, transaction_add_action_ { X with AddAction := g } w idx account name d
            permissions =
          (⟨w.gPackedTxs, h⟩, renderError err))) := by
  refine ⟨(hexDecodeString_ok_iff d).symm, ?_, ?_⟩
  · intro bytes hb
    constructor
    · simp only [transaction_add_action_, hlive, hb, addActionWithData]
    · intro f
      simp only [transaction_add_action_, hlive, hb]
  · intro e he
    constructor
    · intro h bytes hp
      simp only [transaction_add_action_, hlive, he, hp, addActionWithData]
    · intro h err hp
      constructor
      · simp only [transaction_add_action_, hlive, he, hp]
      · intro g
        simp only [transaction_add_action_, hlive, he, hp]

/-- C18 at concrete inputs: on the table with one live transaction, the data `00ff` adds
an action with the bytes 0 and 255, and the data `zz`, with no ABI loaded, is an error
that adds nothing. -/
theorem transaction_add_action_data_witness :
    validateIndex [some 0] 0 = none ∧
    transaction_add_action_ exampleExtern ⟨[some 0], []⟩ 0 "eosio" "hi" "00ff" "" =
      (⟨[some 0], [[0, 255]]⟩, renderData (.str "ok")) ∧
    transaction_add_action_ exampleExtern ⟨[some 0], []⟩ 0 "eosio" "hi" "zz" "" =
      (⟨[some 0], []⟩, renderError "abi not found") :=
  ⟨by decide,
    ((transaction_add_action_data exampleExtern ⟨[some 0], []⟩ 0 "eosio" "hi" "00ff" ""
      (by decide)).2.1 [0, 255] rfl).1.trans rfl,
    (((transaction_add_action_data exampleExtern ⟨[some 0], []⟩ 0 "eosio" "hi" "zz" ""
      (by decide)).2.2 "encoding/hex: invalid byte" rfl).2 [] "abi not found" rfl).1⟩

/-- C19, the code at the failing inputs: `transaction_new_` on the empty table returns the
handle 0 whatever `SetReferenceBlock` and `SetChainId` return; `transaction_from_json_`
renders the handle as data whatever `SetChainId` returns, and on a table of 1024 live
transactions renders the sentinel -1 as data; `transaction_unpack_` of the empty hex
string renders what `json.Marshal` gives whatever `Transaction.Unpack` returns. -/
theorem creating_operations_drop_errors {H Tx : Type} (T : TxExtern H Tx) (ext : H)
    (expiration : Int) (refBlock chainId tx : String) :
    (transaction_new_ T ⟨[], ext⟩ expiration refBlock chainId).2 = 0 ∧
    (transaction_from_json_ T ⟨[], ext⟩ tx chainId).2 =
      (match (T.NewPackedTransactionFromString tx ext).2 with
       | .error err => renderError err
       | .ok _ => renderData (.int 0)) ∧
    (transaction_from_json_ T ⟨List.replicate 1024 (some 0), ext⟩ tx chainId).2 =
      (match (T.NewPackedTransactionFromString tx ext).2 with
       | .error err => renderError err
       | .ok _ => renderData (.int (-1))) ∧
    (transaction_unpack_ T ⟨[], ext⟩ "").2 =
      (match (T.jsonMarshal (T.Unpack T.zero [] ext).2.1 (T.Unpack T.zero [] ext).1).2 with
       | .error err => renderError err
       | .ok js => renderData (.str js)) := by
  refine ⟨?_, ?_, ?_, ?_⟩
  · simp [transaction_new_, addPackedTx, addPackedTx.loop]
  · simp only [transaction_from_json_]
    rcases hn : T.NewPackedTransactionFromString tx ext with ⟨h, r⟩
    cases r with
    | error err => rfl
    | ok p => simp [addPackedTx, addPackedTx.loop]
  · simp only [transaction_from_json_]
    rcases hn : T.NewPackedTransactionFromString tx ext with ⟨h, r⟩
    cases r with
    | error err => rfl
    | ok p =>
      have hfull := addPackedTx_of_full (List.replicate 1024 (some 0)) p
        (by rw [List.length_replicate])
      simp only [hfull]
  · have hhex : hexDecodeString "" = .ok [] := rfl
    simp only [transaction_unpack_, hhex]
    rcases hm : T.jsonMarshal (T.Unpack T.zero [] ext).2.1 (T.Unpack T.zero [] ext).1 with ⟨h, r⟩
    cases r with
    | error err => rfl
    | ok js => rfl

/-! ## Key generation: lemmas and the claim -/

/-- What `io.ReadFull` returns: the buffer is filled exactly when the stream delivers all
the bytes asked for, and then with those bytes. -/
theorem ReadFull_eq_some_iff (rand : Reader) : ∀ (n off : Nat) (k : Bytes),
    ReadFull rand off n = some k ↔ (k.length = n ∧ ∀ i, i < n → rand (off + i) = k[i]?) := by
  intro n
  induction n with
  | zero =>
    intro off k
    simp only [ReadFull, Option.some.injEq]
    constructor
    · intro h
      subst h
      exact ⟨rfl, fun i hi => absurd hi (Nat.not_lt_zero i)⟩
    · rintro ⟨h, _⟩
      exact (List.length_eq_zero.mp h).symm
  | succ n ih =>
    intro off k
    simp only [ReadFull]
    cases hb : rand off with
    | none =>
      simp only []
      constructor
      · intro h; exact absurd h (by simp)
      · rintro ⟨hlen, hk⟩
        have h0 := hk 0 (Nat.succ_pos n)
        rw [Nat.add_zero, hb] at h0
        have : (0 : Nat) < k.length := by omega
        rw [List.getElem?_eq_getElem this] at h0
        exact absurd h0 (by simp)
    | some b =>
      simp only []
      cases hr : ReadFull rand (off + 1) n with
      | none =>
        simp only []
        constructor
        · intro h; exact absurd h (by simp)
        · rintro ⟨hlen, hk⟩
          exfalso
          cases k with
          | nil => simp at hlen
          | cons x rest =>
            have hrest : ReadFull rand (off + 1) n = some rest := by
              rw [ih]
              refine ⟨by simpa using hlen, ?_⟩
              intro i hi
              have := hk (i + 1) (by omega)
              rw [← Nat.add_assoc, Nat.add_right_comm] at this
              simpa using this
            rw [hr] at hrest
            exact absurd hrest (by simp)
      | some rest =>
        simp only [Option.some.injEq]
        have ihr := (ih (off + 1) rest).1 hr
        constructor
        · intro h
          subst h
          refine ⟨by simp [ihr.1], ?_⟩
          intro i hi
          cases i with
          | zero => simpa using hb
          | succ i =>
            have := ihr.2 i (by omega)
            rw [Nat.add_right_comm] at this
            simpa [Nat.add_assoc] using this
        · rintro ⟨hlen, hk⟩
          cases k with
          | nil => simp at hlen
          | cons x rest' =>
            have h0 := hk 0 (Nat.succ_pos n)
            rw [Nat.add_zero, hb] at h0
            simp only [List.getElem?_cons_zero, Option.some.injEq] at h0
            have hrest : ReadFull rand (off + 1) n = some rest' := by
              rw [ih]
              refine ⟨by simpa using hlen, ?_⟩
              intro i hi
              have := hk (i + 1) (by omega)
              rw [← Nat.add_assoc, Nat.add_right_comm] at this
              simpa using this
            rw [hr] at hrest
            simp only [Option.some.injEq] at hrest
            rw [h0, hrest]

/-- The loop of `genPrivKey` started at block `m` returns `k` within `fuel` iterations
exactly when `k` is the first block from `m` on that is in range, every block before it
being delivered and out of range. -/
theorem genPrivKey.loop_ret_iff (rand : Reader) : ∀ (fuel m : Nat) (k : Bytes),
    genPrivKey.loop rand fuel (32 * m) = some (.ret k) ↔
      ∃ j, m ≤ j ∧ j < m + fuel ∧ ReadFull rand (32 * j) 32 = some k ∧
        (0 < SetBytes k ∧ SetBytes k < genPrivKey.N) ∧
        ∀ i, m ≤ i → i < j → ∃ b, ReadFull rand (32 * i) 32 = some b ∧
          ¬ (0 < SetBytes b ∧ SetBytes b < genPrivKey.N) := by
  intro fuel
  induction fuel with
  | zero =>
    intro m k
    simp only [genPrivKey.loop]
    constructor
    · intro h; exact absurd h (by simp)
    · rintro ⟨j, h1, h2, _⟩
      omega
  | succ fuel ih =>
    intro m k
    simp only [genPrivKey.loop]
    cases hb : ReadFull rand (32 * m) 32 with
    | none =>
      simp only []
      constructor
      · intro h
        simp at h
      · rintro ⟨j, h1, _, hk, _, hearlier⟩
        exfalso
        by_cases hjm : j = m
        · subst hjm
          rw [hb] at hk
          exact absurd hk (by simp)
        · obtain ⟨b, hb', _⟩ := hearlier m (le_refl m) (by omega)
          rw [hb] at hb'
          exact absurd hb' (by simp)
    | some b =>
      simp only []
      by_cases hv : 0 < SetBytes b ∧ SetBytes b < genPrivKey.N
      · rw [if_pos hv]
        constructor
        · intro h
          simp only [Option.some.injEq, Outcome.ret.injEq] at h
          subst h
          exact ⟨m, le_refl m, by omega, hb, hv, fun i h1 h2 => by omega⟩
        · rintro ⟨j, h1, _, hk, _, hearlier⟩
          by_cases hjm : j = m
          · subst hjm
            rw [hb] at hk
            simp only [Option.some.injEq] at hk
            rw [hk]
          · obtain ⟨b', hb', hnv⟩ := hearlier m (le_refl m) (by omega)
            rw [hb] at hb'
            simp only [Option.some.injEq] at hb'
            subst hb'
            exact absurd hv hnv
      · rw [if_neg hv]
        have hoff : 32 * m + 32 = 32 * (m + 1) := by ring
        rw [hoff, ih (m + 1) k]
        constructor
        · rintro ⟨j, h1, h2, hk, hvk, hearlier⟩
          refine ⟨j, by omega, by omega, hk, hvk, ?_⟩
          intro i hi1 hi2
          by_cases him : i = m
          · subst him
            exact ⟨b, hb, hv⟩
          · exact hearlier i (by omega) hi2
        · rintro ⟨j, h1, h2, hk, hvk, hearlier⟩
          have hjm : j ≠ m := by
            intro hjm
            subst hjm
            rw [hb] at hk
            simp only [Option.some.injEq] at hk
            subst hk
            exact hv hvk
          refine ⟨j, by omega, by omega, hk, hvk, ?_⟩
          intro i hi1 hi2
          exact hearlier i (by omega) hi2

/-- A block of the stream is what `io.ReadFull` reads at its offset. -/
theorem isBlock_iff (rand : Reader) (j : Nat) (k : Bytes) :
    isBlock rand j k ↔ ReadFull rand (32 * j) 32 = some k :=
  (ReadFull_eq_some_iff rand 32 (32 * j) k).symm

/-- C21: the constant `N` is the secp256k1 group order
`0xFFFFFFFFFFFFFFFFFFFFFFFFFFFFFFFEBAAEDCE6AF48A03BBFD25E8CD0364141`; for every byte stream,
`genPrivKey` returns the key `k` (within `fuel` iterations) exactly when `k` is a
consecutive 32-byte block of the stream whose big-endian value `d` satisfies `0 < d < N`
and every earlier block was delivered and is out of that range; a returned key is 32
bytes long. -/
theorem genPrivKey_first_valid_block (rand : Reader) (fuel : Nat) (k : Bytes) :
    genPrivKey.N = 0xFFFFFFFFFFFFFFFFFFFFFFFFFFFFFFFEBAAEDCE6AF48A03BBFD25E8CD0364141 ∧
    (genPrivKey rand fuel = some (.ret k) ↔
      ∃ j, j < fuel ∧ isBlock rand j k ∧ (0 < SetBytes k ∧ SetBytes k < genPrivKey.N) ∧
        ∀ i, i < j → ∃ b, isBlock rand i b ∧
          ¬ (0 < SetBytes b ∧ SetBytes b < genPrivKey.N)) ∧
    (genPrivKey rand fuel = some (.ret k) → k.length = 32) := by
  have hiff : genPrivKey rand fuel = some (.ret k) ↔
      ∃ j, j < fuel ∧ isBlock rand j k ∧ (0 < SetBytes k ∧ SetBytes k < genPrivKey.N) ∧
        ∀ i, i < j → ∃ b, isBlock rand i b ∧
          ¬ (0 < SetBytes b ∧ SetBytes b < genPrivKey.N) := by
    have h := genPrivKey.loop_ret_iff rand fuel 0 k
    rw [Nat.mul_zero] at h
    rw [genPrivKey, h]
    constructor
    · rintro ⟨j, _, h2, hk, hv, hearlier⟩
      refine ⟨j, by omega, (isBlock_iff rand j k).2 hk, hv, ?_⟩
      intro i hi
      obtain ⟨b, hb, hnv⟩ := hearlier i (Nat.zero_le i) hi
      exact ⟨b, (isBlock_iff rand i b).2 hb, hnv⟩
    · rintro ⟨j, h2, hk, hv, hearlier⟩
      refine ⟨j, Nat.zero_le j, by omega, (isBlock_iff rand j k).1 hk, hv, ?_⟩
      intro i _ hi
      obtain ⟨b, hb, hnv⟩ := hearlier i hi
      exact ⟨b, (isBlock_iff rand i b).1 hb, hnv⟩
  refine ⟨by decide, hiff, ?_⟩
  intro h
  obtain ⟨j, _, hk, _⟩ := hiff.1 h
  exact hk.1

/-- C21 at a concrete stream: 63 bytes 0 and one byte 1. The first block has the value 0,
out of range; the second has the value 1 and is returned. -/
theorem genPrivKey_first_valid_block_witness :
    genPrivKey (Reader.ofBytes (List.replicate 63 0 ++ [1])) 2 =
      some (.ret (List.replicate 31 0 ++ [1])) ∧
    ∃ j, j < 2 ∧ isBlock (Reader.ofBytes (List.replicate 63 0 ++ [1])) j
        (List.replicate 31 0 ++ [1]) ∧
      (0 < SetBytes (List.replicate 31 0 ++ [1]) ∧
        SetBytes (List.replicate 31 0 ++ [1]) < genPrivKey.N) ∧
      ∀ i, i < j → ∃ b, isBlock (Reader.ofBytes (List.replicate 63 0 ++ [1])) i b ∧
        ¬ (0 < SetBytes b ∧ SetBytes b < genPrivKey.N) :=
  ⟨rfl, ((genPrivKey_first_valid_block (Reader.ofBytes (List.replicate 63 0 ++ [1])) 2
    (List.replicate 31 0 ++ [1])).2.1).1 rfl⟩

end UuosKit
